import Mathlib

deriving instance DecidableEq for Except

/-!
Verification development for the vira HTTP dispatch engine.

Shallow embedding of the routing core:
- `src/vira/routing/route.py` (pattern compiler, `Route`, matching, parameter binding)
- `src/vira/routing/api_router.py` (`APIRouter`: specificity sort, `find_route`,
  `handle_request`, allowed-methods probing)
- `src/virapi/middleware/middleware_chain.py` (`MiddlewareChain`)

Python strings are Lean `String`s; regular expressions compiled by the pattern
compiler are represented by the exact sequence of pieces the compiler emits
(escaped literals and the five capture classes), with a backtracking matcher
whose candidate order is the greedy, longest-first order of the Python engine
on this restricted pattern language.  Python dicts with string keys become
association lists preserving insertion order; raised exceptions become
`Except` errors.
-/

namespace Vira

/-- Path-parameter types, the values of the `type_map` in
`Route._get_param_type` (`str`, `int`, `float`, `uuid.UUID`, `"multipath"`). -/
inductive PType
  | pstr
  | pint
  | pfloat
  | puuid
  | pmultipath
deriving DecidableEq, Repr

/-- Converted parameter values (results of `Route._extract_path_parameters`
and `Route._convert_value`).  A Python float parsed from the text
`digits.digits` is represented exactly as the pair (mantissa, number of
fraction digits), i.e. the rational mantissa / 10^frac. -/
inductive Val
  | vstr (s : String)
  | vint (n : Int)
  | vfloat (mant : Int) (frac : Nat)
  | vuuid (s : String)
  | vbool (b : Bool)
deriving DecidableEq, Repr

/-- Numeric value of a list of decimal digit characters. -/
def digitsToNat (cs : List Char) : Nat :=
  cs.foldl (fun acc c => acc * 10 + (c.toNat - '0'.toNat)) 0

/-- All characters are decimal digits and there is at least one:
the strings accepted by a nonempty run of the regex class `\d`. -/
def allDigits (cs : List Char) : Bool :=
  !cs.isEmpty && cs.all (·.isDigit)

/-- Embedding of Python `int(text)` on query/path text: an optional sign
followed by a nonempty run of decimal digits. -/
def pyIntParse (cs : List Char) : Option Int :=
  match cs with
  | '-' :: rest => if allDigits rest then some (-(digitsToNat rest : Int)) else none
  | '+' :: rest => if allDigits rest then some (digitsToNat rest : Int) else none
  | _ => if allDigits cs then some (digitsToNat cs : Int) else none

/-- Embedding of Python `float(text)` on the decimal forms the engine feeds it:
optional sign, nonempty digits, optional dot followed by nonempty digits.
The result is (mantissa, fraction-digit count). -/
def pyFloatParse (cs : List Char) : Option (Int × Nat) :=
  let core : List Char → Option (Int × Nat) := fun ds =>
    let intPart := ds.takeWhile (·.isDigit)
    let rest := ds.drop intPart.length
    if intPart.isEmpty then none
    else
      match rest with
      | [] => some ((digitsToNat intPart : Int), 0)
      | '.' :: fracs =>
          if allDigits fracs then
            some ((digitsToNat (intPart ++ fracs) : Int), fracs.length)
          else none
      | _ => none
  match cs with
  | '-' :: rest => (core rest).map (fun (m, f) => (-m, f))
  | '+' :: rest => core rest
  | _ => core cs

/-- Lowercase-hex digit test, the character class `[0-9a-f]` of
`Route._get_regex_for_parameter_type` for `uuid`. -/
def isHexLower (c : Char) : Bool :=
  c.isDigit || ('a' ≤ c && c ≤ 'f')

/-- Hex digit of either case (Python `uuid.UUID(text)` is case-insensitive). -/
def isHexAny (c : Char) : Bool :=
  c.isDigit || ('a' ≤ c && c ≤ 'f') || ('A' ≤ c && c ≤ 'F')

/-- Canonical 8-4-4-4-12 form, hex digits tested with `hex`. -/
def uuidShapeWith (hex : Char → Bool) (cs : List Char) : Bool :=
  cs.length == 36 &&
  (List.range 36).all (fun i =>
    if i == 8 || i == 13 || i == 18 || i == 23 then cs.getD i ' ' == '-'
    else hex (cs.getD i ' '))

/-- The text accepted by the `uuid` capture class of
`Route._get_regex_for_parameter_type`: canonical form, lowercase hex only. -/
def uuidShapeLower (cs : List Char) : Bool :=
  uuidShapeWith isHexLower cs

/-- Embedding of Python `uuid.UUID(text)` on canonical forms: accepts the
8-4-4-4-12 shape case-insensitively and yields the lowercased text
(`uuid.UUID` equality is by value; its string form is lowercase). -/
def pyUuidParse (cs : List Char) : Option String :=
  if uuidShapeWith isHexAny cs then some (String.mk (cs.map Char.toLower)) else none

/-- One piece of the compiled route regex: an escaped literal chunk emitted by
`Route._process_literal_segment`, or the capture group emitted by
`Route._get_regex_for_parameter_type` for one parameter type. -/
inductive RPart
  | lit (cs : List Char)
  | cap (t : PType)
deriving DecidableEq, Repr

/-- Splits (capture, rest) of the input that the capture class of a parameter
type can consume, in the order the greedy Python engine tries them
(longest capture first):
`int ↦ (\d+)`, `float ↦ (\d+(?:\.\d+)?)`, `uuid ↦ ([0-9a-f]{8}-…-[0-9a-f]{12})`,
`multipath ↦ (.*)`, `str ↦ ([^/]+)`. -/
def capCandidates (t : PType) (cs : List Char) : List (List Char × List Char) :=
  match t with
  | .pmultipath =>
      (List.range (cs.length + 1)).map (fun j =>
        (cs.take (cs.length - j), cs.drop (cs.length - j)))
  | .pstr =>
      let m := (cs.takeWhile (· ≠ '/')).length
      (List.range m).map (fun j => (cs.take (m - j), cs.drop (m - j)))
  | .pint =>
      let m := (cs.takeWhile (·.isDigit)).length
      (List.range m).map (fun j => (cs.take (m - j), cs.drop (m - j)))
  | .pfloat =>
      let d := (cs.takeWhile (·.isDigit)).length
      let fracCands :=
        if d == 0 then []
        else
          match cs.drop d with
          | '.' :: rest =>
              let f := (rest.takeWhile (·.isDigit)).length
              (List.range f).map (fun j =>
                (cs.take (d + 1 + (f - j)), cs.drop (d + 1 + (f - j))))
          | _ => []
      let intCands := (List.range d).map (fun j => (cs.take (d - j), cs.drop (d - j)))
      fracCands ++ intCands
  | .puuid =>
      if uuidShapeLower (cs.take 36) && cs.length ≥ 36 then [(cs.take 36, cs.drop 36)]
      else []

/-- Backtracking matcher for the anchored regex `^parts$`: returns the list of
captured texts (one per capture group, in order) for the first successful
assignment in the engine's candidate order, or `none` when the whole input
cannot be consumed. -/
def reMatch : List RPart → List Char → Option (List (List Char))
  | [], [] => some []
  | [], _ :: _ => none
  | .lit l :: rest, cs =>
      if l.isPrefixOf cs then reMatch rest (cs.drop l.length) else none
  | .cap t :: rest, cs =>
      (capCandidates t cs).findSome? (fun p =>
        (reMatch rest p.2).map (fun caps => p.1 :: caps))

/-- `text.upper()` on a Lean string, via the character-level uppercase map. -/
def strUpper (s : String) : String :=
  String.mk (s.toList.map Char.toUpper)

/-- Lookup in an insertion-ordered association list (Python dict lookup). -/
def lookupStr {α : Type} (l : List (String × α)) (k : String) : Option α :=
  (l.find? (fun p => p.1 == k)).map (·.2)

/-- Python dict assignment `d[k] = v` replayed from the front: the entry keeps
the position of its first assignment and the value of its last. `tail` is the
dict built from the remaining (later) assignments. -/
def dictCons (k : String) (v : PType) (tail : List (String × PType)) :
    List (String × PType) :=
  match lookupStr tail k with
  | some v' => (k, v') :: tail.filter (fun p => p.1 ≠ k)
  | none => (k, v) :: tail

/-- Python-type annotations a handler parameter can carry that the binding
logic distinguishes (`Route._convert_value` targets). -/
inductive BTy
  | bstr
  | bint
  | bfloat
  | buuid
  | bbool
deriving DecidableEq, Repr

/-- A handler parameter annotation: the `Request` class, a plain type, or
`Optional[T]` (a `Union` with `NoneType`). -/
inductive Ann
  | request
  | base (t : BTy)
  | optional (t : BTy)
deriving DecidableEq, Repr

/-- One parameter of the handler signature as `inspect.signature` reports it:
its name, its annotation (`none` = `inspect.Parameter.empty`), and whether a
default value is present. -/
structure HParam where
  name : String
  ann : Option Ann
  hasDefault : Bool
deriving DecidableEq, Repr

/-- The `ValueError`s `Route.__init__` can raise, structured. -/
inductive RouteErr
  | invalidMethods (ms : List String)
  | wildcardPattern
  | unclosedParam (pos : Nat)
  | unknownType (t : String)
  | missingInHandler (ps : List String)
  | missingInRoute (ps : List String)
  | typeMismatch (name : String) (ptype : PType) (ann : Ann)
deriving DecidableEq, Repr

/-- `path.rstrip("/")`: drop every trailing slash. -/
def rstripSlashes (s : String) : String :=
  String.mk ((s.toList.reverse.dropWhile (· = '/')).reverse)

/-- `path.rstrip("/") or "/"`: the path normalization of `Route.__init__`
and `Route.matches`. -/
def normalizePath (s : String) : String :=
  let r := rstripSlashes s
  if r = "" then "/" else r

/-- `Route._count_path_segments`: strip leading slashes, then one segment per
remaining `/` plus one; the empty remainder counts as one segment. -/
def countPathSegments (p : String) : Nat :=
  let clean := p.toList.dropWhile (· = '/')
  if clean.isEmpty then 1 else clean.count '/' + 1

/-- `Route._get_param_type`: the `type_map` of recognized type names. -/
def getParamType (t : String) : Except RouteErr PType :=
  match t with
  | "str" => .ok .pstr
  | "int" => .ok .pint
  | "float" => .ok .pfloat
  | "uuid" => .ok .puuid
  | "multipath" => .ok .pmultipath
  | _ => .error (.unknownType t)

/-- `Route._parse_parameter_specification`: split `name:type` at the first
colon; no colon means type `str`. -/
def parseParameterSpecification (spec : List Char) :
    Except RouteErr (String × PType) :=
  if spec.contains ':' then
    let name := spec.takeWhile (· ≠ ':')
    (getParamType (String.mk (spec.drop (name.length + 1)))).map
      (fun pt => (String.mk name, pt))
  else .ok (String.mk spec, .pstr)

/-- The scan loop of `Route._compile_route_pattern`: at `{` read up to the
matching `}` and emit a capture (`_process_path_parameter`); otherwise emit
the literal chunk up to the next `{` (`_process_literal_segment`).  `pos` is
the current index in the pattern, used in the unclosed-parameter error.
The scan consumes at least one character per step, so it is driven by a fuel
counter that `compileRoutePattern` seeds with the pattern length; the
fuel-exhausted branch is unreachable from there. -/
def compileGo : Nat → List Char → Nat →
    Except RouteErr (List RPart × List (String × PType))
  | _, [], _ => .ok ([], [])
  | 0, _ :: _, pos => .error (.unclosedParam pos)
  | fuel + 1, c :: rest, pos =>
      if c = '{' then
        let spec := rest.takeWhile (· ≠ '}')
        if spec.length = rest.length then .error (.unclosedParam pos)
        else do
          let (name, pt) ← parseParameterSpecification spec
          let (parts, dict) ← compileGo fuel (rest.drop (spec.length + 1))
            (pos + spec.length + 2)
          .ok (.cap pt :: parts, dictCons name pt dict)
      else do
        let lit := rest.takeWhile (· ≠ '{')
        let (parts, dict) ← compileGo fuel (rest.drop lit.length)
          (pos + lit.length + 1)
        .ok (.lit (c :: lit) :: parts, dict)

/-- `Route._compile_route_pattern`: reject `*` wildcards, then scan. -/
def compileRoutePattern (path : String) :
    Except RouteErr (List RPart × List (String × PType)) :=
  if path.toList.contains '*' then .error .wildcardPattern
  else compileGo path.toList.length path.toList 0

/-- The `valid_methods` set of `Route._invalid_http_methods`. -/
def validMethods : List String :=
  ["GET", "POST", "PUT", "DELETE", "PATCH", "HEAD", "OPTIONS"]

/-- The `expected_types` table of `Route._validate_parameter_types`: the
annotations accepted for a path parameter of each pattern type. -/
def annAllowed (pt : PType) (a : Ann) : Bool :=
  match pt with
  | .pint => a == .base .bint
  | .pfloat => a == .base .bfloat
  | .puuid => a == .base .buuid
  | .pstr => a == .base .bstr
  | .pmultipath => a == .base .bstr

/-- The loop of `Route._validate_parameter_types` over
`expected_path_params`: an annotated path handler-parameter whose annotation
is not allowed for its pattern type raises the type-mismatch error. -/
def validateParamTypes (epp : List String) (handler : List HParam)
    (ptys : List (String × PType)) : Except RouteErr Unit :=
  match epp with
  | [] => .ok ()
  | n :: rest =>
      match handler.find? (fun p => p.name == n), lookupStr ptys n with
      | some p, some pt =>
          match p.ann with
          | some a =>
              if annAllowed pt a then validateParamTypes rest handler ptys
              else .error (.typeMismatch n pt a)
          | none => validateParamTypes rest handler ptys
      | _, _ => validateParamTypes rest handler ptys

/-- Deduplication keeping first occurrences: the contents of the Python set
`self.methods - valid_methods` as a list. -/
def dedupAcc (seen : List String) : List String → List String
  | [] => []
  | a :: as =>
      if seen.contains a then dedupAcc seen as
      else a :: dedupAcc (seen ++ [a]) as

/-- `methods or {"GET"}` in `Route.__init__`: `None` and the empty set are
falsy, so both fall back to the default `{"GET"}`. -/
def effectiveMethods (ms : Option (List String)) : List String :=
  match ms with
  | none => ["GET"]
  | some [] => ["GET"]
  | some l => l

/-- The classification loop of `Route._inspect_handler_signature`: the
handler parameters that are not `Request`-annotated and whose name occurs in
the pattern's parameter map (`handler_path_params`). -/
def handlerPathParams (hdl : List HParam) (keys : List String) : List String :=
  (hdl.filter (fun p => p.ann != some .request && keys.contains p.name)).map (·.name)

/-- The `Route` object: the fields `Route.__init__` computes and stores. -/
structure Route where
  path : String
  handler : List HParam
  methods : List String
  priority : Int
  route_regex : List RPart
  param_types : List (String × PType)
  segment_count : Nat
  has_multipath_parameter : Bool
  handler_params : List String
  request_params : List String
  handler_path_params : List String
  expected_path_params : List String
deriving DecidableEq, Repr

/-- `Route.__init__`: normalize the path, default the methods
(`methods or {"GET"}`: `None` and the empty set are both falsy), reject
invalid methods, compile the pattern, inspect the handler signature
(`_inspect_handler_signature`) and cross-validate
(`_validate_parameter_existence`, `_validate_parameter_types`). -/
def Route.make (path : String) (handler : List HParam)
    (methods : Option (List String)) (priority : Int) : Except RouteErr Route := do
  let npath := normalizePath path
  let ms := effectiveMethods methods
  let invalid := dedupAcc [] (ms.filter (fun m => !validMethods.contains m))
  if !invalid.isEmpty then
    throw (.invalidMethods invalid)
  let compiled ← compileRoutePattern npath
  let keys := compiled.2.map (·.1)
  let hpp := handlerPathParams handler keys
  let epp := hpp.filter (fun n => keys.contains n)
  let missH := keys.filter (fun k => !hpp.contains k)
  if !missH.isEmpty then
    throw (.missingInHandler missH)
  let missR := hpp.filter (fun k => !keys.contains k)
  if !missR.isEmpty then
    throw (.missingInRoute missR)
  validateParamTypes epp handler compiled.2
  pure {
    path := npath
    handler := handler
    methods := ms
    priority := priority
    route_regex := compiled.1
    param_types := compiled.2
    segment_count := countPathSegments npath
    has_multipath_parameter := compiled.2.any (fun p => p.2 == .pmultipath)
    handler_params := handler.map (·.name)
    request_params :=
      (handler.filter (fun p => p.ann == some .request)).map (·.name)
    handler_path_params := hpp
    expected_path_params := epp
  }

/-- The per-capture conversion of `Route._extract_path_parameters`:
`int(raw)`, `float(raw)`, `uuid.UUID(raw)`, or the raw string. -/
def convertCapture (pt : PType) (raw : List Char) : Option Val :=
  match pt with
  | .pint => (pyIntParse raw).map .vint
  | .pfloat => (pyFloatParse raw).map (fun mf => .vfloat mf.1 mf.2)
  | .puuid => (pyUuidParse raw).map .vuuid
  | .pmultipath => some (.vstr (String.mk raw))
  | .pstr => some (.vstr (String.mk raw))

/-- `Route._extract_path_parameters`: convert group `i+1` for the `i`-th
entry of `param_types`, in declaration order; any conversion failure yields
`(False, {})` instead of an exception. -/
def extractPathParameters (ptys : List (String × PType))
    (caps : List (List Char)) : Bool × List (String × Val) :=
  match ptys, caps with
  | [], _ => (true, [])
  | _ :: _, [] => (false, [])
  | (n, pt) :: pr, c :: cr =>
      match convertCapture pt c with
      | none => (false, [])
      | some v =>
          match extractPathParameters pr cr with
          | (true, rest) => (true, (n, v) :: rest)
          | (false, _) => (false, [])

/-- `Route.matches`: method test, segment-count gate, then — raw path first
when the route has a multipath parameter — the anchored regex, and capture
conversion. -/
def Route.matches (r : Route) (path method : String) :
    Bool × List (String × Val) :=
  if !(r.methods.contains (strUpper method)) then (false, [])
  else
    let reqCount := countPathSegments path
    let normPath := normalizePath path
    let segmentMatch := reqCount == r.segment_count
      || countPathSegments normPath == r.segment_count
      || (decide (reqCount > r.segment_count) && r.has_multipath_parameter)
    if !segmentMatch then (false, [])
    else
      match (if r.has_multipath_parameter
             then reMatch r.route_regex path.toList
             else none) with
      | some caps => extractPathParameters r.param_types caps
      | none =>
          match reMatch r.route_regex normPath.toList with
          | none => (false, [])
          | some caps => extractPathParameters r.param_types caps

/-! ### Request / Response values -/

/-- The `Request` value object (`vira/request/request.py`), reduced to the
fields the routing core reads and writes: method, path, the first-value query
mapping `query_params`, and the `path_params` installed by `handle_request`. -/
structure Request where
  method : String
  path : String
  query_params : List (String × String)
  path_params : List (String × Val)
deriving DecidableEq, Repr

/-- Modelled from the spec: the `Response` value object (`vira/response.py`,
absent from src/), reduced to the fields `handle_request` writes: body,
integer status code, headers mapping (defaulting to empty). -/
structure Response where
  body : String
  status_code : Nat
  headers : List (String × String)
deriving DecidableEq, Repr

/-- Modelled from the spec: `HTTPStatus.HTTP_404_NOT_FOUND` of
`vira/status.py` (absent from src/). -/
def HTTP_404_NOT_FOUND : Nat := 404

/-- Modelled from the spec: `HTTPStatus.HTTP_405_METHOD_NOT_ALLOWED` of
`vira/status.py` (absent from src/). -/
def HTTP_405_METHOD_NOT_ALLOWED : Nat := 405

/-! ### Query-parameter binding (`Route.handle`) -/

/-- The dispatch-time exceptions of `Route.handle`: the `TypeError` raised on
a failed query-parameter conversion, and the `ValueError` raised on a missing
required query parameter. -/
inductive QErr
  | coercionFailure (name : String)
  | missingRequired (name : String)
deriving DecidableEq, Repr

/-- A value bound into the handler call's keyword arguments: the `Request`
object itself or a converted parameter value. -/
inductive BVal
  | breq
  | bval (v : Val)
deriving DecidableEq, Repr

/-- `Route._is_optional_type`: the annotation is `Optional[T]`. -/
def isOptionalAnn : Ann → Bool
  | .optional _ => true
  | _ => false

/-- `Route._unwrap_type` composed with `Route._convert_value` under the
`try` of `Route.handle`: unwrap `Optional[T]` to `T`, then convert, with any
`ValueError`/`TypeError` (including the unsupported-target `TypeError`, which
a `Request` target would raise) collapsing to `none`. -/
def convertQuery (a : Ann) (v : String) : Option Val :=
  match a with
  | .request => none
  | .base t => convertPrim t v
  | .optional t => convertPrim t v
where
  /-- `Route._convert_value` on one target type. -/
  convertPrim (t : BTy) (v : String) : Option Val :=
    match t with
    | .bstr => some (.vstr v)
    | .bint => (pyIntParse v.toList).map .vint
    | .bfloat => (pyFloatParse v.toList).map (fun mf => .vfloat mf.1 mf.2)
    | .buuid => (pyUuidParse v.toList).map .vuuid
    | .bbool =>
        let lower := String.mk (v.toList.map Char.toLower)
        if lower == "true" || lower == "1" || lower == "t" then
          some (.vbool true)
        else if lower == "false" || lower == "0" || lower == "f" then
          some (.vbool false)
        else none

/-- The first injection loop of `Route.handle`: bind the `Request` object for
`Request`-annotated parameters and the already-converted value for parameters
named in `request.path_params`. -/
def injectLoop (ps : List HParam) (req : Request) (kw : List (String × BVal)) :
    List (String × BVal) :=
  match ps with
  | [] => kw
  | p :: rest =>
      if p.ann == some .request then
        injectLoop rest req (kw ++ [(p.name, .breq)])
      else
        match lookupStr req.path_params p.name with
        | some v => injectLoop rest req (kw ++ [(p.name, .bval v)])
        | none => injectLoop rest req kw

/-- The second loop of `Route.handle`: for each signature parameter not yet
bound and carrying an explicit annotation, bind the converted query value, or
raise the coercion `TypeError`, or fall back to the default / raise the
missing-parameter `ValueError`. -/
def bindQueryLoop (ps : List HParam) (req : Request)
    (kw : List (String × BVal)) : Except QErr (List (String × BVal)) :=
  match ps with
  | [] => .ok kw
  | p :: rest =>
      if (lookupStr kw p.name).isSome then bindQueryLoop rest req kw
      else
        match p.ann with
        | none => bindQueryLoop rest req kw
        | some a =>
            match lookupStr req.query_params p.name with
            | some raw =>
                match convertQuery a raw with
                | some v => bindQueryLoop rest req (kw ++ [(p.name, .bval v)])
                | none => .error (.coercionFailure p.name)
            | none =>
                if isOptionalAnn a || p.hasDefault then bindQueryLoop rest req kw
                else .error (.missingRequired p.name)

/-- `Route.handle` up to the handler invocation boundary: the keyword
arguments passed to `await self.handler(**kwargs)`, or the raised dispatch
error.  The handler call itself is external to the dispatch core. -/
def Route.handle (r : Route) (req : Request) :
    Except QErr (List (String × BVal)) :=
  bindQueryLoop r.handler req (injectLoop r.handler req [])

/-- Specification-side predicate: the converted value carries the value
constructor that the declared pattern type's conversion produces. -/
def valHasType (v : Val) (pt : PType) : Bool :=
  match pt, v with
  | .pint, .vint _ => true
  | .pfloat, .vfloat _ _ => true
  | .puuid, .vuuid _ => true
  | .pstr, .vstr _ => true
  | .pmultipath, .vstr _ => true
  | _, _ => false

/-- Specification-side summary of what `Route.handle` does for one signature
parameter, assuming signature names are distinct: `none` when the parameter
binds or is skipped, `some e` when processing it raises `e`. -/
def stepErr (req : Request) (p : HParam) : Option QErr :=
  if p.ann == some Ann.request then none
  else if (lookupStr req.path_params p.name).isSome then none
  else
    match p.ann with
    | none => none
    | some a =>
        match lookupStr req.query_params p.name with
        | some raw =>
            if (convertQuery a raw).isNone then some (.coercionFailure p.name)
            else none
        | none =>
            if isOptionalAnn a || p.hasDefault then none
            else some (.missingRequired p.name)

/-! ### APIRouter -/

/-- A route together with the definition order recorded for it in
`APIRouter._route_definition_order`. -/
structure RouteEntry where
  route : Route
  defOrder : Nat
deriving DecidableEq, Repr

/-- Split a character list at every `/` (Python `text.split("/")`). -/
def splitOnSlash : List Char → List (List Char)
  | [] => [[]]
  | '/' :: rest => [] :: splitOnSlash rest
  | c :: rest =>
      match splitOnSlash rest with
      | [] => [[c]]
      | s :: ss => (c :: s) :: ss

/-- `path.strip("/")`: drop leading and trailing slashes. -/
def stripSlashes (s : String) : List Char :=
  ((s.toList.dropWhile (· = '/')).reverse.dropWhile (· = '/')).reverse

/-- The segment list of `APIRouter._calculate_route_specificity`: the root
path counts as the single segment `""`; otherwise strip slashes and split. -/
def routeSegmentsC (p : String) : List (List Char) :=
  if p = "/" then [[]] else splitOnSlash (stripSlashes p)

/-- `literal_segments`: segments not starting with `{`. -/
def literalSegmentCount (p : String) : Nat :=
  ((routeSegmentsC p).filter (fun s => !(s.headD ' ' == '{'))).length

/-- `total_segments`. -/
def totalSegmentCount (p : String) : Nat :=
  (routeSegmentsC p).length

/-- The specificity tuple of `APIRouter._calculate_route_specificity`:
`(priority, literal_segments, total_segments, -definition_order)`. -/
def specTuple (e : RouteEntry) : Int × Nat × Nat × Int :=
  (e.route.priority, literalSegmentCount e.route.path,
   totalSegmentCount e.route.path, -(e.defOrder : Int))

/-- Lexicographic comparison of specificity tuples (Python tuple `<=`). -/
def tupLE (x y : Int × Nat × Nat × Int) : Bool :=
  decide (x.1 < y.1) ||
  (x.1 == y.1 &&
    (decide (x.2.1 < y.2.1) ||
      (x.2.1 == y.2.1 &&
        (decide (x.2.2.1 < y.2.2.1) ||
          (x.2.2.1 == y.2.2.1 && decide (x.2.2.2 ≤ y.2.2.2))))))

/-- `a` may precede `b` in `routes.sort(key=…, reverse=True)` order:
`b`'s specificity tuple is at most `a`'s. -/
def specAbove (a b : RouteEntry) : Prop :=
  tupLE (specTuple b) (specTuple a) = true

instance : DecidableRel specAbove := fun a b =>
  inferInstanceAs (Decidable (tupLE (specTuple b) (specTuple a) = true))

/-- `self.routes.sort(key=self._calculate_route_specificity, reverse=True)`:
a stable sort placing higher specificity tuples first. -/
def sortRoutes (l : List RouteEntry) : List RouteEntry :=
  List.insertionSort specAbove l

/-- The `APIRouter` state: the stored (rstripped) prefix — named `pfx` here
because `prefix` is a Lean keyword — and the sorted route list with recorded
definition orders. -/
structure Router where
  pfx : String
  routes : List RouteEntry
deriving DecidableEq, Repr

/-- `APIRouter.__init__`. -/
def Router.init (p : String) : Router :=
  ⟨rstripSlashes p, []⟩

/-- `APIRouter.add_route`: apply the router prefix, construct the `Route`
(which may raise), record its definition order (`len` of the order dict at
insertion time, which always equals the current route count), append and
re-sort by specificity. -/
def Router.addRoute (rt : Router) (path : String) (handler : List HParam)
    (methods : Option (List String)) (priority : Int) : Except RouteErr Router := do
  let fullPath := if path ≠ "/" then rt.pfx ++ path
    else (if rt.pfx = "" then "/" else rt.pfx)
  let route ← Route.make fullPath handler methods priority
  pure { rt with
    routes := sortRoutes (rt.routes ++ [⟨route, rt.routes.length⟩]) }

/-- The loop of `APIRouter.include_router`: re-create each route of the other
router under the combined prefix, appending with fresh definition orders. -/
def includeFold (combined : String) (rs : List RouteEntry)
    (acc : List RouteEntry) : Except RouteErr (List RouteEntry) :=
  match rs with
  | [] => .ok acc
  | e :: rest => do
      let newPath := if combined ≠ "" then combined ++ e.route.path
        else e.route.path
      let nr ← Route.make newPath e.route.handler (some e.route.methods)
        e.route.priority
      includeFold combined rest (acc ++ [⟨nr, acc.length⟩])

/-- `APIRouter.include_router`: non-destructive to the other router;
re-sorts once after appending all re-created routes. -/
def Router.includeRouter (rt : Router) (other : Router) (pfx2 : String) :
    Except RouteErr Router := do
  let p2 := rstripSlashes pfx2
  let combined := if p2 ≠ "" then rt.pfx ++ p2 else rt.pfx
  let entries ← includeFold combined other.routes rt.routes
  pure { rt with routes := sortRoutes entries }

/-- `APIRouter.find_route`: linear scan of the specificity-sorted route list;
the first successful `matches` wins. -/
def Router.findRoute (rt : Router) (path method : String) :
    Option (RouteEntry × List (String × Val)) :=
  rt.routes.findSome? (fun e =>
    let mr := e.route.matches path method
    if mr.1 then some (e, mr.2) else none)

/-- The set-collecting loop of `APIRouter._get_allowed_methods` over one
route's methods (set membership modelled by skipping present elements). -/
def collectMethods (r : Route) (path : String) (ms : List String)
    (acc : List String) : List String :=
  match ms with
  | [] => acc
  | m :: rest =>
      collectMethods r path rest
        (if (r.matches path m).1 && !acc.contains m then acc ++ [m] else acc)

/-- The route loop of `APIRouter._get_allowed_methods`. -/
def collectAllowed (entries : List RouteEntry) (path : String)
    (acc : List String) : List String :=
  match entries with
  | [] => acc
  | e :: rest => collectAllowed rest path (collectMethods e.route path e.route.methods acc)

/-- Lexicographic `≤` on strings by code point (Python string comparison). -/
def strLe (a b : String) : Bool :=
  charListLe a.toList b.toList
where
  charListLe : List Char → List Char → Bool
    | [], _ => true
    | _ :: _, [] => false
    | c :: cs, d :: ds => if c == d then charListLe cs ds else decide (c < d)

/-- Insert into a `strLe`-sorted list. -/
def insertStr (x : String) : List String → List String
  | [] => [x]
  | y :: ys => if strLe x y then x :: y :: ys else y :: insertStr x ys

/-- Python `sorted` on a list of strings. -/
def sortStrings : List String → List String
  | [] => []
  | x :: xs => insertStr x (sortStrings xs)

/-- Join with `", "` (Python `", ".join(...)`). -/
def joinComma : List String → String
  | [] => ""
  | [x] => x
  | x :: xs => x ++ ", " ++ joinComma xs

/-- The sorted, deduplicated method list `_get_allowed_methods` joins. -/
def Router.allowedMethodsList (rt : Router) (path : String) : List String :=
  sortStrings (collectAllowed rt.routes path [])

/-- `APIRouter._get_allowed_methods`: comma-separated sorted union of the
methods that match the path. -/
def Router.getAllowedMethods (rt : Router) (path : String) : String :=
  joinComma (rt.allowedMethodsList path)

/-- The outcome of `APIRouter.handle_request`: a 404/405 response produced by
the router itself, or control passed to `route.handle` for the resolved
route (with the resolved path parameters installed on the request).  The
handler invocation inside `route.handle` is the external boundary. -/
inductive DispatchResult
  | response (resp : Response)
  | invoke (e : RouteEntry) (outcome : Except QErr (List (String × BVal)))
deriving DecidableEq, Repr

/-- `APIRouter.handle_request`: find a route; on failure probe every route
under the seven standard methods to distinguish 405 (with computed `Allow`
header) from 404; on success install path parameters and dispatch. -/
def Router.handleRequest (rt : Router) (req : Request) : DispatchResult :=
  match rt.findRoute req.path req.method with
  | none =>
      let pathExists := rt.routes.any (fun e =>
        (e.route.matches req.path "GET").1 || (e.route.matches req.path "POST").1
        || (e.route.matches req.path "PUT").1
        || (e.route.matches req.path "DELETE").1
        || (e.route.matches req.path "PATCH").1
        || (e.route.matches req.path "HEAD").1
        || (e.route.matches req.path "OPTIONS").1)
      if pathExists then
        .response ⟨"Method Not Allowed", HTTP_405_METHOD_NOT_ALLOWED,
          [("allow", rt.getAllowedMethods req.path)]⟩
      else
        .response ⟨"Not Found", HTTP_404_NOT_FOUND, []⟩
  | some (e, ps) => .invoke e (e.route.handle { req with path_params := ps })

end Vira

namespace Virapi

/-!
### MiddlewareChain (`src/virapi/middleware/middleware_chain.py`)

Async middleware callables of shape `(request, call_next) -> response` are
embedded as functions `ρ → (ρ → π) → π`, polymorphic in the request type `ρ`
and the (possibly effectful) response computation type `π`; for the traced
executions below `π` instantiates to an explicit event-trace state passer.
-/

/-- The `MiddlewareChain` state: the ordered `_middlewares` list. -/
structure MiddlewareChain (ρ π : Type) where
  middlewares : List (ρ → (ρ → π) → π)

/-- `MiddlewareChain.add`: append to the list. -/
def MiddlewareChain.add {ρ π : Type} (c : MiddlewareChain ρ π)
    (m : ρ → (ρ → π) → π) : MiddlewareChain ρ π :=
  ⟨c.middlewares ++ [m]⟩

/-- `MiddlewareChain.count`. -/
def MiddlewareChain.count {ρ π : Type} (c : MiddlewareChain ρ π) : Nat :=
  c.middlewares.length

/-- `MiddlewareChain.clear`: empty the list. -/
def MiddlewareChain.clear {ρ π : Type} (_c : MiddlewareChain ρ π) :
    MiddlewareChain ρ π :=
  ⟨[]⟩

/-- `MiddlewareChain.build`: the empty chain returns the endpoint unchanged;
otherwise fold from the last-registered middleware inward, each step closing
over the previously built handler as `call_next` (the reversed `for` loop of
the source). -/
def MiddlewareChain.build {ρ π : Type} (c : MiddlewareChain ρ π)
    (endpoint : ρ → π) : ρ → π :=
  match c.middlewares with
  | [] => endpoint
  | _ :: _ =>
      c.middlewares.foldr
        (fun mw acc => fun req => mw req (fun r => acc r)) endpoint

/-- Observable events of a traced execution. -/
inductive Ev
  | before (s : String)
  | after (s : String)
  | endpointCalled
deriving DecidableEq, Repr

/-- Trace-passing computations: the `π` instance used to observe execution
order.  A computation takes the trace so far and returns (response, trace). -/
abbrev Traced := List Ev → Nat × List Ev

/-- A named middleware of the shape the spec describes: emit its before
event, then either delegate to `call_next` once and emit its after event, or
short-circuit with response `sc` without calling `call_next`. -/
def tracedMw (name : String) (callsNext : Bool) (sc : Nat) :
    Unit → (Unit → Traced) → Traced :=
  fun req next t =>
    if callsNext then
      let r := next req (t ++ [Ev.before name])
      (r.1, r.2 ++ [Ev.after name])
    else (sc, t ++ [Ev.before name])

/-- A terminal endpoint that records its invocation and returns `resp`. -/
def tracedEndpoint (resp : Nat) : Unit → Traced :=
  fun _ t => (resp, t ++ [Ev.endpointCalled])

/-- The chain registering the given (name, calls-next) middlewares in order. -/
def tracedChain (l : List (String × Bool)) (sc : Nat) :
    MiddlewareChain Unit Traced :=
  ⟨l.map (fun nb => tracedMw nb.1 nb.2 sc)⟩

/-- The event trace the onion model prescribes: before events in
registration order; at the first middleware that skips `call_next` the trace
stops unwinding there; otherwise the endpoint runs once and after events
unwind in reverse registration order. -/
def expectedTrace : List (String × Bool) → List Ev
  | [] => [.endpointCalled]
  | (n, true) :: rest => .before n :: (expectedTrace rest ++ [.after n])
  | (n, false) :: _ => [.before n]

/-- The response the traced chain returns: the endpoint's response when every
middleware delegates, else the short-circuit response. -/
def expectedResp (l : List (String × Bool)) (resp sc : Nat) : Nat :=
  if l.all (·.2) then resp else sc

end Virapi

namespace Virapi

theorem tracedBuildAux (resp sc : Nat) (l : List (String × Bool)) :
    ∀ (t : List Ev),
      (List.foldr (fun mw acc => fun req => mw req (fun r => acc r))
        (tracedEndpoint resp) (l.map (fun nb => tracedMw nb.1 nb.2 sc))) () t
      = (expectedResp l resp sc, t ++ expectedTrace l) := by
  induction l with
  | nil =>
      intro t
      simp [tracedEndpoint, expectedTrace, expectedResp]
  | cons nb rest ih =>
      intro t
      obtain ⟨n, b⟩ := nb
      cases b with
      | false =>
          simp [tracedMw, expectedTrace, expectedResp]
      | true =>
          simp only [List.map_cons, List.foldr_cons, tracedMw, if_pos, ih,
            expectedTrace, expectedResp, List.all_cons, Bool.true_and]
          simp [List.append_assoc]

theorem expectedTrace_allTrue :
    ∀ (l : List (String × Bool)), l.all (·.2) = true →
      expectedTrace l = l.map (fun nb => Ev.before nb.1) ++ [Ev.endpointCalled]
        ++ l.reverse.map (fun nb => Ev.after nb.1) := by
  intro l
  induction l with
  | nil => intro _; simp [expectedTrace]
  | cons nb rest ih =>
      intro h
      obtain ⟨n, b⟩ := nb
      simp only [List.all_cons, Bool.and_eq_true] at h
      obtain ⟨hb, hrest⟩ := h
      cases b with
      | false => simp at hb
      | true =>
          simp [expectedTrace, ih hrest, List.append_assoc]

theorem expectedTrace_shortCircuit :
    ∀ (l1 : List (String × Bool)) (n : String) (l2 : List (String × Bool)),
      l1.all (·.2) = true →
      expectedTrace (l1 ++ (n, false) :: l2)
        = l1.map (fun nb => Ev.before nb.1) ++ [Ev.before n]
          ++ l1.reverse.map (fun nb => Ev.after nb.1) := by
  intro l1
  induction l1 with
  | nil => intro n l2 _; simp [expectedTrace]
  | cons nb rest ih =>
      intro n l2 h
      obtain ⟨m, b⟩ := nb
      simp only [List.all_cons, Bool.and_eq_true] at h
      obtain ⟨hb, hrest⟩ := h
      cases b with
      | false => simp at hb
      | true =>
          simp [expectedTrace, ih n l2 hrest, List.append_assoc]

theorem expectedTrace_endpoint_count :
    ∀ (l : List (String × Bool)),
      (expectedTrace l).count Ev.endpointCalled ≤ 1 := by
  intro l
  induction l with
  | nil => simp [expectedTrace]
  | cons nb rest ih =>
      obtain ⟨n, b⟩ := nb
      cases b with
      | false => simp [expectedTrace]
      | true =>
          simpa [expectedTrace, List.count_append, List.count_cons] using ih

/-- C5: for every middleware list and endpoint, the callable built by
`MiddlewareChain.build` runs the pre-`call_next` code in registration order
(first registered outermost), invokes the endpoint at most once (exactly once
when every middleware delegates), then runs the post-`call_next` code in
reverse registration order; a middleware that never calls `call_next`
prevents the endpoint and every inner middleware from running while outer
layers still unwind. -/
theorem middleware_chain_onion_order (l : List (String × Bool)) (resp sc : Nat) :
    ((tracedChain l sc).build (tracedEndpoint resp)) () []
        = (expectedResp l resp sc, expectedTrace l)
    ∧ (l.all (·.2) = true →
        expectedTrace l = l.map (fun nb => Ev.before nb.1) ++ [Ev.endpointCalled]
          ++ l.reverse.map (fun nb => Ev.after nb.1))
    ∧ (∀ l1 n l2, l = l1 ++ (n, false) :: l2 → l1.all (·.2) = true →
        expectedTrace l = l1.map (fun nb => Ev.before nb.1) ++ [Ev.before n]
          ++ l1.reverse.map (fun nb => Ev.after nb.1))
    ∧ (expectedTrace l).count Ev.endpointCalled ≤ 1 := by
  refine ⟨?_, ?_, ?_, expectedTrace_endpoint_count l⟩
  · cases l with
    | nil =>
        simp [MiddlewareChain.build, tracedChain, tracedEndpoint, expectedTrace,
          expectedResp]
    | cons nb rest =>
        have h := tracedBuildAux resp sc (nb :: rest) []
        simpa [MiddlewareChain.build, tracedChain] using h
  · exact expectedTrace_allTrue l
  · intro l1 n l2 hl h1
    subst hl
    exact expectedTrace_shortCircuit l1 n l2 h1

/-- Witness for C5 at the concrete chains `[A, B]` (both delegating) and
`[A, B-short-circuit, C]` around an endpoint returning `7`. -/
theorem middleware_chain_onion_order_witness :
    ((tracedChain [("A", true), ("B", true)] 99).build (tracedEndpoint 7)) () []
        = (7, [Ev.before "A", Ev.before "B", Ev.endpointCalled,
               Ev.after "B", Ev.after "A"])
    ∧ ((tracedChain [("A", true), ("B", false), ("C", true)] 99).build
          (tracedEndpoint 7)) () []
        = (99, [Ev.before "A", Ev.before "B", Ev.after "A"]) := by
  constructor
  · exact (middleware_chain_onion_order [("A", true), ("B", true)] 7 99).1.trans
      (by decide)
  · exact (middleware_chain_onion_order [("A", true), ("B", false), ("C", true)]
      7 99).1.trans (by decide)

/-- C9: `MiddlewareChain.build` on a chain with no registered middleware
returns the endpoint itself — definitionally the identical callable. -/
theorem build_empty_chain_returns_endpoint (ρ π : Type) (e : ρ → π) :
    (MiddlewareChain.mk ([] : List (ρ → (ρ → π) → π))).build e = e :=
  rfl

/-- C8 counterexample: mutating the middleware list after `build` has been
applied is not rejected — on the very chain that `build` was applied to,
`add` succeeds and extends the list (count 0 becomes 1). -/
theorem mutation_after_build_accepted_cex :
    (MiddlewareChain.mk ([] : List (Unit → (Unit → Traced) → Traced))).build
        (tracedEndpoint 7) = tracedEndpoint 7
    ∧ ((MiddlewareChain.mk ([] : List (Unit → (Unit → Traced) → Traced))).add
        (tracedMw "M" true 0)).count = 1
    ∧ ((MiddlewareChain.mk ([] : List (Unit → (Unit → Traced) → Traced))).add
        (tracedMw "M" true 0)).middlewares ≠ [] := by
  refine ⟨rfl, rfl, ?_⟩
  simp [MiddlewareChain.add]

/-- C8 amended: `build` is pure — it only reads the middleware list and
returns a composed callable, leaving the chain value unchanged — but mutation
after build is NOT rejected: `add` appends to the list and `clear` empties
it at any time, with no failure path. -/
theorem middleware_chain_mutation_after_build (ρ π : Type)
    (c : MiddlewareChain ρ π) (m : ρ → (ρ → π) → π) :
    (c.add m).middlewares = c.middlewares ++ [m]
    ∧ (c.add m).count = c.count + 1
    ∧ (MiddlewareChain.clear (c.add m)).middlewares = []
    ∧ (MiddlewareChain.mk c.middlewares).build = c.build := by
  refine ⟨rfl, ?_, rfl, rfl⟩
  simp [MiddlewareChain.add, MiddlewareChain.count]

end Virapi

namespace Vira

theorem mem_dedupAcc (m : String) :
    ∀ (l seen : List String), m ∈ dedupAcc seen l ↔ m ∈ l ∧ m ∉ seen := by
  intro l
  induction l with
  | nil => intro seen; simp [dedupAcc]
  | cons a as ih =>
      intro seen
      by_cases ha : seen.contains a
      · have ham : a ∈ seen := by simpa using ha
        simp only [dedupAcc, if_pos ha, ih]
        constructor
        · rintro ⟨hm, hns⟩; exact ⟨List.mem_cons_of_mem a hm, hns⟩
        · rintro ⟨hm, hns⟩
          rcases List.mem_cons.mp hm with rfl | hm
          · exact absurd ham hns
          · exact ⟨hm, hns⟩
      · simp only [dedupAcc, if_neg ha, List.mem_cons, ih]
        have hna : a ∉ seen := by simpa using ha
        constructor
        · rintro (rfl | ⟨hm, hns⟩)
          · exact ⟨Or.inl rfl, hna⟩
          · refine ⟨Or.inr hm, fun hs => hns (by simp [hs])⟩
        · rintro ⟨rfl | hm, hns⟩
          · exact Or.inl rfl
          · by_cases hma : m = a
            · exact Or.inl hma
            · exact Or.inr ⟨hm, by simp [hns, hma]⟩

theorem dedupAcc_eq_nil (l seen : List String) :
    dedupAcc seen l = [] ↔ ∀ m ∈ l, m ∈ seen := by
  constructor
  · intro h m hm
    by_contra hns
    have : m ∈ dedupAcc seen l := (mem_dedupAcc m l seen).mpr ⟨hm, hns⟩
    rw [h] at this
    exact absurd this (List.not_mem_nil m)
  · intro h
    cases he : dedupAcc seen l with
    | nil => rfl
    | cons x xs =>
        have hx : x ∈ dedupAcc seen l := by rw [he]; exact List.mem_cons_self x xs
        have := (mem_dedupAcc x l seen).mp hx
        exact absurd (h x this.1) this.2

theorem except_ok_eval {α β : Type} {e : Except RouteErr α} {r : α}
    {f : α → β} {v : β} (h : e = Except.ok r)
    (h2 : e.map f = Except.ok v) : f r = v := by
  subst h
  simpa [Except.map] using h2

theorem extract_false_empty :
    ∀ (ptys : List (String × PType)) (caps : List (List Char)),
      (extractPathParameters ptys caps).1 = false →
      (extractPathParameters ptys caps).2 = [] := by
  intro ptys
  induction ptys with
  | nil => intro caps h; simp [extractPathParameters] at h
  | cons p pr ih =>
      intro caps h
      obtain ⟨n, pt⟩ := p
      cases caps with
      | nil => simp [extractPathParameters]
      | cons c cr =>
          simp only [extractPathParameters] at h ⊢
          cases hc : convertCapture pt c with
          | none => simp [hc]
          | some v =>
              simp only [hc] at h ⊢
              cases hrec : extractPathParameters pr cr with
              | mk b rest =>
                  cases b with
                  | true => simp [hrec] at h
                  | false => simp [hrec]

theorem extract_true_shape :
    ∀ (ptys : List (String × PType)) (caps : List (List Char))
      (ps : List (String × Val)),
      extractPathParameters ptys caps = (true, ps) →
      List.Forall₂ (fun pv pt => pv.1 = pt.1 ∧ valHasType pv.2 pt.2 = true)
        ps ptys := by
  intro ptys
  induction ptys with
  | nil =>
      intro caps ps h
      simp only [extractPathParameters] at h
      cases h
      exact List.Forall₂.nil
  | cons p pr ih =>
      intro caps ps h
      obtain ⟨n, pt⟩ := p
      cases caps with
      | nil => simp [extractPathParameters] at h
      | cons c cr =>
          simp only [extractPathParameters] at h
          cases hc : convertCapture pt c with
          | none => simp [hc] at h
          | some v =>
              simp only [hc] at h
              cases hrec : extractPathParameters pr cr with
              | mk b rest =>
                  cases b with
                  | false => simp [hrec] at h
                  | true =>
                      simp only [hrec] at h
                      cases h
                      refine List.Forall₂.cons ⟨rfl, ?_⟩ (ih cr rest hrec)
                      cases pt with
                      | pint =>
                          simp only [convertCapture, Option.map_eq_some'] at hc
                          obtain ⟨w, -, rfl⟩ := hc
                          rfl
                      | pfloat =>
                          simp only [convertCapture, Option.map_eq_some'] at hc
                          obtain ⟨⟨w1, w2⟩, -, rfl⟩ := hc
                          rfl
                      | puuid =>
                          simp only [convertCapture, Option.map_eq_some'] at hc
                          obtain ⟨w, -, rfl⟩ := hc
                          rfl
                      | pstr =>
                          simp only [convertCapture, Option.some.injEq] at hc
                          subst hc
                          rfl
                      | pmultipath =>
                          simp only [convertCapture, Option.some.injEq] at hc
                          subst hc
                          rfl

theorem extract_pair_false (ptys : List (String × PType))
    (caps : List (List Char)) (ps : List (String × Val))
    (h : extractPathParameters ptys caps = (false, ps)) : ps = [] := by
  have h1 := extract_false_empty ptys caps (by rw [h])
  rw [h] at h1
  simpa using h1

theorem matches_false_empty (r : Route) (path method : String)
    (ps : List (String × Val)) (h : r.matches path method = (false, ps)) :
    ps = [] := by
  simp only [Route.matches] at h
  split at h
  · cases h; rfl
  · split at h
    · cases h; rfl
    · split at h
      next caps hcaps => exact extract_pair_false _ _ _ h
      next hcaps =>
          split at h
          · cases h; rfl
          · exact extract_pair_false _ _ _ h

theorem matches_true_shape (r : Route) (path method : String)
    (ps : List (String × Val)) (h : r.matches path method = (true, ps)) :
    List.Forall₂ (fun pv pt => pv.1 = pt.1 ∧ valHasType pv.2 pt.2 = true)
      ps r.param_types := by
  simp only [Route.matches] at h
  split at h
  · cases h
  · split at h
    · cases h
    · split at h
      next caps hcaps => exact extract_true_shape _ _ _ h
      next hcaps =>
          split at h
          · cases h
          · exact extract_true_shape _ _ _ h

theorem matches_true_method_mem (r : Route) (path method : String)
    (h : (r.matches path method).1 = true) :
    strUpper method ∈ r.methods := by
  by_contra hmem
  simp [Route.matches, hmem] at h

theorem matches_method_congr (r : Route) (path m1 m2 : String)
    (h : strUpper m1 = strUpper m2) :
    r.matches path m1 = r.matches path m2 := by
  simp only [Route.matches, h]

theorem matches_multipath_raw (r : Route) (path method : String)
    (caps : List (List Char))
    (hm : r.methods.contains (strUpper method) = true)
    (hmp : r.has_multipath_parameter = true)
    (hseg : (countPathSegments path == r.segment_count
      || countPathSegments (normalizePath path) == r.segment_count
      || (decide (countPathSegments path > r.segment_count)
            && r.has_multipath_parameter)) = true)
    (hre : reMatch r.route_regex path.toList = some caps) :
    r.matches path method = extractPathParameters r.param_types caps := by
  have hm' : strUpper method ∈ r.methods := by simpa using hm
  have hseg' : countPathSegments path = r.segment_count
      ∨ countPathSegments (normalizePath path) = r.segment_count
      ∨ r.segment_count < countPathSegments path := by
    rw [hmp] at hseg
    simpa [or_assoc] using hseg
  have hCfalse : ¬((¬countPathSegments path = r.segment_count
        ∧ ¬countPathSegments (normalizePath path) = r.segment_count)
      ∧ countPathSegments path ≤ r.segment_count) := by
    rcases hseg' with h1 | h1 | h1
    · exact fun hC => hC.1.1 h1
    · exact fun hC => hC.1.2 h1
    · exact fun hC => absurd hC.2 (by omega)
  simp only [String.toList] at hre
  simp [Route.matches, hm', hmp, hre, hCfalse]

theorem parseSpec_error_shape (spec : List Char) (e : RouteErr)
    (h : parseParameterSpecification spec = .error e) :
    ∃ t, e = .unknownType t := by
  simp only [parseParameterSpecification] at h
  split at h
  · cases hg : getParamType (String.mk (spec.drop
      ((spec.takeWhile (· ≠ ':')).length + 1))) with
    | ok pt => rw [hg] at h; simp [Except.map] at h
    | error e2 =>
        rw [hg] at h
        simp only [Except.map] at h
        cases h
        simp only [getParamType] at hg
        split at hg <;> first
          | (cases hg; exact ⟨_, rfl⟩)
          | (cases hg)
  · cases h

theorem compileGo_error_shape :
    ∀ (fuel : Nat) (cs : List Char) (pos : Nat) (e : RouteErr),
      compileGo fuel cs pos = .error e →
      (∃ i, e = .unclosedParam i) ∨ ∃ t, e = .unknownType t := by
  intro fuel
  induction fuel with
  | zero =>
      intro cs pos e h
      cases cs with
      | nil => simp [compileGo] at h
      | cons c rest =>
          simp only [compileGo] at h
          cases h
          exact Or.inl ⟨_, rfl⟩
  | succ f ih =>
      intro cs pos e h
      cases cs with
      | nil => simp [compileGo] at h
      | cons c rest =>
          simp only [compileGo, bind, Except.bind] at h
          split at h
          · split at h
            · cases h; exact Or.inl ⟨_, rfl⟩
            · cases hp : parseParameterSpecification
                  (rest.takeWhile (· ≠ '}')) with
              | error e2 =>
                  rw [hp] at h
                  cases h
                  exact Or.inr (parseSpec_error_shape _ _ hp)
              | ok np =>
                  rw [hp] at h
                  cases hr : compileGo f
                      (rest.drop ((rest.takeWhile (· ≠ '}')).length + 1))
                      (pos + (rest.takeWhile (· ≠ '}')).length + 2) with
                  | error e3 =>
                      rw [hr] at h
                      cases h
                      exact ih _ _ _ hr
                  | ok pd => rw [hr] at h; simp [pure, Except.pure] at h
          · cases hr : compileGo f
                (rest.drop ((rest.takeWhile (· ≠ '{')).length))
                (pos + (rest.takeWhile (· ≠ '{')).length + 1) with
            | error e3 =>
                rw [hr] at h
                cases h
                exact ih _ _ _ hr
            | ok pd => rw [hr] at h; simp [pure, Except.pure] at h

theorem compileRoutePattern_error_shape (p : String) (e : RouteErr)
    (h : compileRoutePattern p = .error e) :
    e = .wildcardPattern ∨ (∃ i, e = .unclosedParam i)
      ∨ ∃ t, e = .unknownType t := by
  simp only [compileRoutePattern] at h
  split at h
  · cases h; exact Or.inl rfl
  · exact Or.inr (compileGo_error_shape _ _ _ _ h)

theorem validateParamTypes_error_shape :
    ∀ (epp : List String) (hdl : List HParam) (ptys : List (String × PType))
      (e : RouteErr), validateParamTypes epp hdl ptys = .error e →
      ∃ n p pt a, e = .typeMismatch n pt a ∧ n ∈ epp
        ∧ hdl.find? (fun q => q.name == n) = some p
        ∧ lookupStr ptys n = some pt
        ∧ p.ann = some a ∧ annAllowed pt a = false := by
  intro epp
  induction epp with
  | nil => intro hdl ptys e h; simp [validateParamTypes] at h
  | cons n rest ih =>
      intro hdl ptys e h
      simp only [validateParamTypes] at h
      split at h
      next p pt hf hl =>
        split at h
        next a ha =>
          split at h
          · obtain ⟨n2, p2, pt2, a2, he, hm, hrest⟩ := ih hdl ptys e h
            exact ⟨n2, p2, pt2, a2, he, List.mem_cons_of_mem n hm, hrest⟩
          · rename_i hna
            cases h
            exact ⟨n, p, pt, a, rfl, List.mem_cons_self n rest, hf, hl, ha,
              by simpa using hna⟩
        next ha =>
          obtain ⟨n2, p2, pt2, a2, he, hm, hrest⟩ := ih hdl ptys e h
          exact ⟨n2, p2, pt2, a2, he, List.mem_cons_of_mem n hm, hrest⟩
      next hf =>
        obtain ⟨n2, p2, pt2, a2, he, hm, hrest⟩ := ih hdl ptys e h
        exact ⟨n2, p2, pt2, a2, he, List.mem_cons_of_mem n hm, hrest⟩

theorem validateParamTypes_ok_shape :
    ∀ (epp : List String) (hdl : List HParam) (ptys : List (String × PType)),
      validateParamTypes epp hdl ptys = .ok () →
      ∀ n ∈ epp, ∀ p, hdl.find? (fun q => q.name == n) = some p →
        ∀ pt, lookupStr ptys n = some pt →
        ∀ a, p.ann = some a → annAllowed pt a = true := by
  intro epp
  induction epp with
  | nil => intro hdl ptys _ n hn; simp at hn
  | cons m rest ih =>
      intro hdl ptys h n hn p hp pt hpt a ha
      simp only [validateParamTypes] at h
      rcases List.mem_cons.mp hn with rfl | hn2
      · split at h
        next p2 pt2 hf2 hl2 =>
          rw [hp] at hf2
          cases hf2
          rw [hpt] at hl2
          cases hl2
          split at h
          next a2 ha2 =>
            rw [ha] at ha2
            cases ha2
            split at h
            · assumption
            · cases h
          next ha2 => rw [ha] at ha2; cases ha2
        next hf2 => exact absurd hpt (hf2 p pt hp)
      · split at h
        next p2 pt2 hf2 hl2 =>
          split at h
          next a2 ha2 =>
            split at h
            · exact ih hdl ptys h n hn2 p hp pt hpt a ha
            · cases h
          next ha2 => exact ih hdl ptys h n hn2 p hp pt hpt a ha
        next hf2 => exact ih hdl ptys h n hn2 p hp pt hpt a ha

theorem handlerPathParams_subset_names (hdl : List HParam)
    (keys : List String) (n : String)
    (h : n ∈ handlerPathParams hdl keys) : n ∈ hdl.map (·.name) := by
  simp only [handlerPathParams, List.mem_map, List.mem_filter] at h
  obtain ⟨p, ⟨hp, -⟩, rfl⟩ := h
  exact List.mem_map.mpr ⟨p, hp, rfl⟩

theorem handlerPathParams_subset_keys (hdl : List HParam)
    (keys : List String) (n : String)
    (h : n ∈ handlerPathParams hdl keys) : keys.contains n = true := by
  simp only [handlerPathParams, List.mem_map, List.mem_filter,
    Bool.and_eq_true] at h
  obtain ⟨p, ⟨-, -, hk⟩, rfl⟩ := h
  exact hk

theorem methods_filter_nil (ms : List String)
    (h : ∀ m ∈ ms, m ∈ validMethods) :
    ms.filter (fun m => !validMethods.contains m) = [] := by
  rw [List.filter_eq_nil_iff]
  intro m hm
  simp [h m hm]

theorem make_ok_inv (path : String) (hdl : List HParam)
    (ms : Option (List String)) (pr : Int) (r : Route)
    (h : Route.make path hdl ms pr = .ok r) :
    r.path = normalizePath path
    ∧ r.handler = hdl
    ∧ r.methods = effectiveMethods ms
    ∧ r.priority = pr
    ∧ compileRoutePattern (normalizePath path)
        = .ok (r.route_regex, r.param_types)
    ∧ (∀ m ∈ effectiveMethods ms, m ∈ validMethods)
    ∧ r.handler_path_params = handlerPathParams hdl (r.param_types.map (·.1))
    ∧ r.expected_path_params = (handlerPathParams hdl
        (r.param_types.map (·.1))).filter
          (fun n => (r.param_types.map (·.1)).contains n)
    ∧ (∀ k ∈ r.param_types.map (·.1),
        k ∈ handlerPathParams hdl (r.param_types.map (·.1)))
    ∧ validateParamTypes r.expected_path_params hdl r.param_types = .ok () := by
  simp only [Route.make, bind, Except.bind, pure, Except.pure, throw, throwThe,
    MonadExceptOf.throw] at h
  split at h
  · exact absurd h (by simp)
  · rename_i hinv
    split at h
    next heq => exact absurd h (by simp)
    next c heq =>
      split at h
      · exact absurd h (by simp)
      · rename_i hmissH
        split at h
        · exact absurd h (by simp)
        · rename_i hmissR
          split at h
          next e2 heq2 => exact absurd h (by simp)
          next u heq2 =>
            cases h
            have hinv2 : dedupAcc []
                ((effectiveMethods ms).filter
                  (fun m => !validMethods.contains m)) = [] := by
              cases hD : dedupAcc []
                  ((effectiveMethods ms).filter
                    (fun m => !validMethods.contains m)) with
              | nil => rfl
              | cons x xs => rw [hD] at hinv; simp at hinv
            have hvalid : ∀ m ∈ effectiveMethods ms, m ∈ validMethods := by
              intro m hm
              by_contra hnv
              have hf : m ∈ (effectiveMethods ms).filter
                  (fun m => !validMethods.contains m) := by
                simp [List.mem_filter, hm, hnv]
              have : m ∈ dedupAcc []
                  ((effectiveMethods ms).filter
                    (fun m => !validMethods.contains m)) :=
                (mem_dedupAcc m _ []).mpr ⟨hf, by simp⟩
              rw [hinv2] at this
              exact absurd this (List.not_mem_nil m)
            have hmh : ∀ k ∈ c.2.map (·.1),
                k ∈ handlerPathParams hdl (c.2.map (·.1)) := by
              intro k hk
              have hfil : (c.2.map (·.1)).filter
                  (fun k => !(handlerPathParams hdl (c.2.map (·.1))).contains k)
                    = [] := by
                cases hF : (c.2.map (·.1)).filter
                    (fun k => !(handlerPathParams hdl
                      (c.2.map (·.1))).contains k) with
                | nil => rfl
                | cons x xs => rw [hF] at hmissH; simp at hmissH
              have := List.filter_eq_nil_iff.mp hfil k hk
              simpa using this
            cases u
            exact ⟨rfl, rfl, rfl, rfl, by rw [heq], hvalid, rfl, rfl, hmh, heq2⟩

theorem make_invalidMethods_inv (path : String) (hdl : List HParam)
    (ms : Option (List String)) (pr : Int) (e : List String)
    (h : Route.make path hdl ms pr = .error (.invalidMethods e)) :
    e = dedupAcc [] ((effectiveMethods ms).filter
      (fun m => !validMethods.contains m)) ∧ e ≠ [] := by
  simp only [Route.make, bind, Except.bind, pure, Except.pure, throw, throwThe,
    MonadExceptOf.throw] at h
  split at h
  · rename_i hinv
    cases h
    refine ⟨rfl, ?_⟩
    intro hnil
    rw [hnil] at hinv
    simp at hinv
  · rename_i hinv
    split at h
    next heq =>
      cases h
      rcases compileRoutePattern_error_shape _ _ heq with h1 | ⟨i, h1⟩ | ⟨t, h1⟩ <;>
        cases h1
    next c heq =>
      split at h
      · cases h
      · split at h
        · cases h
        · split at h
          next e2 heq2 =>
            cases h
            obtain ⟨n, p, pt, a, he, -⟩ := validateParamTypes_error_shape _ _ _ _ heq2
            cases he
          next u heq2 => exact absurd h (by simp)

theorem make_missingInHandler (path : String) (hdl : List HParam)
    (ms : Option (List String)) (pr : Int)
    (parts : List RPart) (ptys : List (String × PType))
    (hm : ∀ m ∈ effectiveMethods ms, m ∈ validMethods)
    (hc : compileRoutePattern (normalizePath path) = .ok (parts, ptys))
    (hne : (ptys.map (·.1)).filter
      (fun k => !(handlerPathParams hdl (ptys.map (·.1))).contains k) ≠ []) :
    Route.make path hdl ms pr = .error (.missingInHandler
      ((ptys.map (·.1)).filter
        (fun k => !(handlerPathParams hdl (ptys.map (·.1))).contains k))) := by
  have hfil : (effectiveMethods ms).filter
      (fun m => !validMethods.contains m) = [] := methods_filter_nil _ hm
  have hE : ((ptys.map (·.1)).filter
      (fun k => !(handlerPathParams hdl (ptys.map (·.1))).contains k)).isEmpty
        = false := by
    cases hF : (ptys.map (·.1)).filter
        (fun k => !(handlerPathParams hdl (ptys.map (·.1))).contains k) with
    | nil => exact absurd hF hne
    | cons x xs => simp
  simp only [Route.make, bind, Except.bind, pure, Except.pure, throw, throwThe,
    MonadExceptOf.throw, hfil, hc, hE]
  simp [dedupAcc]

theorem make_validate_error (path : String) (hdl : List HParam)
    (ms : Option (List String)) (pr : Int)
    (parts : List RPart) (ptys : List (String × PType)) (e : RouteErr)
    (hm : ∀ m ∈ effectiveMethods ms, m ∈ validMethods)
    (hc : compileRoutePattern (normalizePath path) = .ok (parts, ptys))
    (hmh : (ptys.map (·.1)).filter
      (fun k => !(handlerPathParams hdl (ptys.map (·.1))).contains k) = [])
    (hv : validateParamTypes
      ((handlerPathParams hdl (ptys.map (·.1))).filter
        (fun n => (ptys.map (·.1)).contains n)) hdl ptys = .error e) :
    Route.make path hdl ms pr = .error e := by
  have hfil : (effectiveMethods ms).filter
      (fun m => !validMethods.contains m) = [] := methods_filter_nil _ hm
  have hmr : (handlerPathParams hdl (ptys.map (·.1))).filter
      (fun k => !(ptys.map (·.1)).contains k) = [] := by
    rw [List.filter_eq_nil_iff]
    intro n hn
    have hcn : (ptys.map (·.1)).contains n = true :=
      handlerPathParams_subset_keys hdl _ n hn
    rw [hcn]
    decide
  simp only [Route.make, bind, Except.bind, pure, Except.pure, throw, throwThe,
    MonadExceptOf.throw, hfil, hc, hmh, hmr, hv]
  simp [dedupAcc]

/-- C3: typed placeholders convert captures by declared type in declaration
order: `/users/{id:int}` matched against `/users/123` yields the integer
`123`, `/users/12a` never matches that route; in general a successful match
binds, name by name in `param_types` order, values of the declared types, and
any conversion failure makes `matches` return no-match `(False, {})` rather
than raise. -/
theorem typed_placeholder_conversion :
    (∀ r, Route.make "/users/{id:int}"
        [⟨"id", some (.base .bint), false⟩] none 0 = .ok r →
      r.matches "/users/123" "GET" = (true, [("id", Val.vint 123)])
      ∧ r.matches "/users/12a" "GET" = (false, []))
    ∧ (∀ (r : Route) (path method : String) (ps : List (String × Val)),
        r.matches path method = (false, ps) → ps = [])
    ∧ (∀ (r : Route) (path method : String) (ps : List (String × Val)),
        r.matches path method = (true, ps) →
        List.Forall₂ (fun pv pt => pv.1 = pt.1 ∧ valHasType pv.2 pt.2 = true)
          ps r.param_types)
    ∧ (∀ (ptys : List (String × PType)) (caps : List (List Char))
        (ps : List (String × Val)),
        extractPathParameters ptys caps = (false, ps) → ps = []) := by
  refine ⟨?_, matches_false_empty, matches_true_shape, extract_pair_false⟩
  intro r h
  constructor
  · exact @except_ok_eval Route _ _ r
      (fun rr => rr.matches "/users/123" "GET") _ h (by decide)
  · exact @except_ok_eval Route _ _ r
      (fun rr => rr.matches "/users/12a" "GET") _ h (by decide)

/-- Witness for C3 at the concrete route `/users/{id:int}`. -/
theorem typed_placeholder_conversion_witness :
    ∃ r, Route.make "/users/{id:int}"
        [⟨"id", some (.base .bint), false⟩] none 0 = .ok r
      ∧ r.matches "/users/123" "GET" = (true, [("id", Val.vint 123)])
      ∧ r.matches "/users/12a" "GET" = (false, []) := by
  cases hE : Route.make "/users/{id:int}"
      [⟨"id", some (.base .bint), false⟩] none 0 with
  | error e =>
      have hOk : (Route.make "/users/{id:int}"
          [⟨"id", some (.base .bint), false⟩] none 0).isOk = true := by decide
      rw [hE] at hOk
      cases hOk
  | ok r =>
      obtain ⟨h1, h2⟩ := typed_placeholder_conversion.1 r hE
      exact ⟨r, rfl, h1, h2⟩

/-- C4: a trailing multipath parameter accepts an empty remainder, one extra
segment, or many: `/files/{p:multipath}` matches `/files/`, `/files/a` and
`/files/a/b/c`; and in general, for a route with a multipath parameter whose
regex matches the raw (un-normalized) request path, `matches` uses that raw
match — the normalized path is only a fallback. -/
theorem multipath_matching :
    (∀ r, Route.make "/files/{p:multipath}"
        [⟨"p", some (.base .bstr), false⟩] none 0 = .ok r →
      r.matches "/files/" "GET" = (true, [("p", Val.vstr "")])
      ∧ r.matches "/files/a" "GET" = (true, [("p", Val.vstr "a")])
      ∧ r.matches "/files/a/b/c" "GET" = (true, [("p", Val.vstr "a/b/c")]))
    ∧ (∀ (r : Route) (path method : String) (caps : List (List Char)),
        r.methods.contains (strUpper method) = true →
        r.has_multipath_parameter = true →
        (countPathSegments path == r.segment_count
          || countPathSegments (normalizePath path) == r.segment_count
          || (decide (countPathSegments path > r.segment_count)
                && r.has_multipath_parameter)) = true →
        reMatch r.route_regex path.toList = some caps →
        r.matches path method = extractPathParameters r.param_types caps) := by
  refine ⟨?_, fun r path method caps hm hmp hseg hre =>
    matches_multipath_raw r path method caps hm hmp hseg hre⟩
  intro r h
  exact ⟨@except_ok_eval Route _ _ r
      (fun rr => rr.matches "/files/" "GET") _ h (by decide),
    @except_ok_eval Route _ _ r
      (fun rr => rr.matches "/files/a" "GET") _ h (by decide),
    @except_ok_eval Route _ _ r
      (fun rr => rr.matches "/files/a/b/c" "GET") _ h (by decide)⟩

/-- Witness for C4 at the concrete route `/files/{p:multipath}`. -/
theorem multipath_matching_witness :
    ∃ r, Route.make "/files/{p:multipath}"
        [⟨"p", some (.base .bstr), false⟩] none 0 = .ok r
      ∧ r.matches "/files/" "GET" = (true, [("p", Val.vstr "")])
      ∧ r.matches "/files/a" "GET" = (true, [("p", Val.vstr "a")])
      ∧ r.matches "/files/a/b/c" "GET" = (true, [("p", Val.vstr "a/b/c")]) := by
  cases hE : Route.make "/files/{p:multipath}"
      [⟨"p", some (.base .bstr), false⟩] none 0 with
  | error e =>
      have hOk : (Route.make "/files/{p:multipath}"
          [⟨"p", some (.base .bstr), false⟩] none 0).isOk = true := by decide
      rw [hE] at hOk
      cases hOk
  | ok r =>
      obtain ⟨h1, h2, h3⟩ := multipath_matching.1 r hE
      exact ⟨r, rfl, h1, h2, h3⟩

/-- C10: `None` methods and the empty method set are both falsy in
`methods or {"GET"}`, so both silently substitute the default `{GET}`; the
invalid-methods rejection fires only for a non-empty given set containing a
name outside the seven standard methods. -/
theorem methods_defaulting (path : String) (hdl : List HParam) (pr : Int) :
    Route.make path hdl none pr = Route.make path hdl (some []) pr
    ∧ (∀ r, Route.make path hdl none pr = .ok r → r.methods = ["GET"])
    ∧ (∀ e, Route.make path hdl none pr ≠ .error (.invalidMethods e))
    ∧ (∀ l e, Route.make path hdl (some l) pr = .error (.invalidMethods e) →
        l ≠ [] ∧ ∃ m ∈ l, m ∉ validMethods)
    ∧ (∀ l, (∀ m ∈ l, m ∈ validMethods) →
        ∀ e, Route.make path hdl (some l) pr ≠ .error (.invalidMethods e)) := by
  refine ⟨rfl, ?_, ?_, ?_, ?_⟩
  · intro r h
    exact (make_ok_inv path hdl none pr r h).2.2.1
  · intro e h
    obtain ⟨he, hne⟩ := make_invalidMethods_inv path hdl none pr e h
    apply hne
    rw [he]
    rfl
  · intro l e h
    obtain ⟨he, hne⟩ := make_invalidMethods_inv path hdl (some l) pr e h
    cases l with
    | nil =>
        exfalso
        apply hne
        rw [he]
        rfl
    | cons a as =>
        refine ⟨by simp, ?_⟩
        cases hD : dedupAcc []
            ((effectiveMethods (some (a :: as))).filter
              (fun m => !validMethods.contains m)) with
        | nil => rw [hD] at he; exact absurd he hne
        | cons x xs =>
            have hx : x ∈ dedupAcc []
                ((effectiveMethods (some (a :: as))).filter
                  (fun m => !validMethods.contains m)) := by
              rw [hD]; exact List.mem_cons_self x xs
            obtain ⟨hf, -⟩ := (mem_dedupAcc x _ []).mp hx
            rw [List.mem_filter] at hf
            exact ⟨x, hf.1, by simpa using hf.2⟩
  · intro l hval e h
    obtain ⟨he, hne⟩ := make_invalidMethods_inv path hdl (some l) pr e h
    apply hne
    rw [he, methods_filter_nil]
    · rfl
    · intro m hm
      cases l with
      | nil => simp [effectiveMethods] at hm; subst hm; decide
      | cons a as => exact hval m hm

/-- Witness for C10: methods `None` on a concrete route yields `{GET}`, and
a non-empty set with the unknown name FETCH is rejected listing FETCH. -/
theorem methods_defaulting_witness :
    (∃ r, Route.make "/a" [] none 0 = .ok r ∧ r.methods = ["GET"])
    ∧ (["FETCH", "GET"] ≠ [] ∧ ∃ m ∈ ["FETCH", "GET"], m ∉ validMethods) := by
  constructor
  · cases hE : Route.make "/a" [] none 0 with
    | error e =>
        have hOk : (Route.make "/a" [] none 0).isOk = true := by decide
        rw [hE] at hOk
        cases hOk
    | ok r => exact ⟨r, rfl, (methods_defaulting "/a" [] 0).2.1 r hE⟩
  · exact (methods_defaulting "/a" [] 0).2.2.2.1 ["FETCH", "GET"] ["FETCH"]
      (by decide)

/-- C7: pattern/handler consistency is checked at construction: on success
every pattern parameter has a same-named (non-`Request`) handler parameter
and every handler path-parameter exists in the pattern; a pattern parameter
with no same-named handler parameter makes construction fail with the
missing-in-handler error naming it; and — existence being consistent — an
annotated path handler-parameter whose annotation is not the one its pattern
type allows makes construction fail with a type-mismatch error naming a
mismatched parameter and both types.  A constructed `Route` therefore never
carries such a mismatch to dispatch. -/
theorem construction_validation :
    (∀ (path : String) (hdl : List HParam) (ms : Option (List String))
        (pr : Int) (r : Route), Route.make path hdl ms pr = .ok r →
      (∀ k ∈ r.param_types.map (·.1),
        k ∈ r.handler_path_params ∧ k ∈ hdl.map (·.name))
      ∧ (∀ n ∈ r.handler_path_params, n ∈ r.param_types.map (·.1)))
    ∧ (∀ (path : String) (hdl : List HParam) (ms : Option (List String))
        (pr : Int) (parts : List RPart) (ptys : List (String × PType))
        (k : String),
        (∀ m ∈ effectiveMethods ms, m ∈ validMethods) →
        compileRoutePattern (normalizePath path) = .ok (parts, ptys) →
        k ∈ ptys.map (·.1) → k ∉ hdl.map (·.name) →
        ∃ miss, Route.make path hdl ms pr = .error (.missingInHandler miss)
          ∧ k ∈ miss)
    ∧ (∀ (path : String) (hdl : List HParam) (ms : Option (List String))
        (pr : Int) (parts : List RPart) (ptys : List (String × PType)),
        (∀ m ∈ effectiveMethods ms, m ∈ validMethods) →
        compileRoutePattern (normalizePath path) = .ok (parts, ptys) →
        (∀ k ∈ ptys.map (·.1), k ∈ handlerPathParams hdl (ptys.map (·.1))) →
        (∃ n p a pt, n ∈ handlerPathParams hdl (ptys.map (·.1))
          ∧ hdl.find? (fun q => q.name == n) = some p
          ∧ lookupStr ptys n = some pt ∧ p.ann = some a
          ∧ annAllowed pt a = false) →
        ∃ n pt a p, Route.make path hdl ms pr = .error (.typeMismatch n pt a)
          ∧ hdl.find? (fun q => q.name == n) = some p
          ∧ lookupStr ptys n = some pt ∧ p.ann = some a
          ∧ annAllowed pt a = false) := by
  refine ⟨?_, ?_, ?_⟩
  · intro path hdl ms pr r h
    have inv := make_ok_inv path hdl ms pr r h
    obtain ⟨-, -, -, -, -, -, hpp_eq, -, hsub, -⟩ := inv
    constructor
    · intro k hk
      have hk2 := hsub k hk
      exact ⟨by rw [hpp_eq]; exact hk2,
        handlerPathParams_subset_names hdl _ k hk2⟩
    · intro n hn
      rw [hpp_eq] at hn
      have := handlerPathParams_subset_keys hdl _ n hn
      simpa using this
  · intro path hdl ms pr parts ptys k hm hc hk hnm
    have hcf : (handlerPathParams hdl (ptys.map (·.1))).contains k = false := by
      cases hcc : (handlerPathParams hdl (ptys.map (·.1))).contains k with
      | false => rfl
      | true =>
          exfalso
          apply hnm
          exact handlerPathParams_subset_names hdl _ k (by simpa using hcc)
    have hmemf : k ∈ (ptys.map (·.1)).filter
        (fun k => !(handlerPathParams hdl (ptys.map (·.1))).contains k) :=
      List.mem_filter.mpr ⟨hk, by rw [hcf]; rfl⟩
    have hne : (ptys.map (·.1)).filter
        (fun k => !(handlerPathParams hdl (ptys.map (·.1))).contains k) ≠ [] := by
      intro hnil
      rw [hnil] at hmemf
      exact absurd hmemf (List.not_mem_nil k)
    exact ⟨_, make_missingInHandler path hdl ms pr parts ptys hm hc hne, hmemf⟩
  · intro path hdl ms pr parts ptys hm hc hall hmis
    obtain ⟨n, p, a, pt, hn, hf, hl, ha, hna⟩ := hmis
    have hmhnil : (ptys.map (·.1)).filter
        (fun k => !(handlerPathParams hdl (ptys.map (·.1))).contains k) = [] := by
      rw [List.filter_eq_nil_iff]
      intro k hk
      have : (handlerPathParams hdl (ptys.map (·.1))).contains k = true := by
        simpa using hall k hk
      rw [this]
      decide
    have hnepp : n ∈ (handlerPathParams hdl (ptys.map (·.1))).filter
        (fun m => (ptys.map (·.1)).contains m) :=
      List.mem_filter.mpr ⟨hn, handlerPathParams_subset_keys hdl _ n hn⟩
    cases hv : validateParamTypes
        ((handlerPathParams hdl (ptys.map (·.1))).filter
          (fun m => (ptys.map (·.1)).contains m)) hdl ptys with
    | ok u =>
        cases u
        have := validateParamTypes_ok_shape _ hdl ptys hv n hnepp p hf pt hl a ha
        rw [this] at hna
        cases hna
    | error e =>
        have hmk := make_validate_error path hdl ms pr parts ptys e hm hc
          hmhnil hv
        obtain ⟨n2, p2, pt2, a2, he, -, hf2, hl2, ha2, hna2⟩ :=
          validateParamTypes_error_shape _ hdl ptys e hv
        subst he
        exact ⟨n2, pt2, a2, p2, hmk, hf2, hl2, ha2, hna2⟩

/-- Witness for C7: `{x}` with a handler lacking `x` is rejected naming `x`;
handler `x: str` against `{x:int}` is rejected with a type mismatch, and the
concrete error names `x`, `int` and `str`. -/
theorem construction_validation_witness :
    (∃ miss, Route.make "/api/{x}" [] none 0
        = .error (.missingInHandler miss) ∧ "x" ∈ miss)
    ∧ (∃ n pt a p, Route.make "/api/{x:int}"
          [⟨"x", some (.base .bstr), false⟩] none 0
          = .error (.typeMismatch n pt a)
        ∧ ([⟨"x", some (.base .bstr), false⟩] : List HParam).find?
            (fun q => q.name == n) = some p
        ∧ lookupStr [("x", PType.pint)] n = some pt ∧ p.ann = some a
        ∧ annAllowed pt a = false)
    ∧ Route.make "/api/{x:int}" [⟨"x", some (.base .bstr), false⟩] none 0
        = .error (.typeMismatch "x" .pint (.base .bstr)) := by
  refine ⟨?_, ?_, by decide⟩
  · exact construction_validation.2.1 "/api/{x}" [] none 0
      [.lit "/api/".toList, .cap .pstr] [("x", PType.pstr)] "x"
      (by decide) (by decide) (by decide) (by decide)
  · exact construction_validation.2.2 "/api/{x:int}"
      [⟨"x", some (.base .bstr), false⟩] none 0
      [.lit "/api/".toList, .cap .pint] [("x", PType.pint)]
      (by decide) (by decide) (by decide)
      ⟨"x", ⟨"x", some (.base .bstr), false⟩, .base .bstr, .pint,
        by decide, by decide, by decide, rfl, rfl⟩

theorem lookupStr_append {α : Type} (l1 l2 : List (String × α)) (k : String) :
    lookupStr (l1 ++ l2) k
      = match lookupStr l1 k with
        | some v => some v
        | none => lookupStr l2 k := by
  induction l1 with
  | nil => simp [lookupStr]
  | cons x xs ih =>
      by_cases hk : x.1 = k
      · simp [lookupStr, List.find?, hk]
      · simp only [lookupStr, List.cons_append, List.find?] at ih ⊢
        rw [show (x.1 == k) = false by simpa using hk]
        exact ih

theorem lookupStr_append_single {α : Type} (kw : List (String × α))
    (n : String) (v : α) (k : String) (hne : n ≠ k) :
    lookupStr (kw ++ [(n, v)]) k = lookupStr kw k := by
  rw [lookupStr_append]
  cases h : lookupStr kw k with
  | some w => rfl
  | none =>
      simp only [lookupStr, List.find?]
      rw [show (n == k) = false by simpa using hne]
      rfl

theorem injectLoop_lookup_notin (req : Request) :
    ∀ (ps : List HParam) (kw : List (String × BVal)) (n : String),
      (∀ q ∈ ps, q.name ≠ n) →
      lookupStr (injectLoop ps req kw) n = lookupStr kw n := by
  intro ps
  induction ps with
  | nil => intro kw n _; rfl
  | cons p rest ih =>
      intro kw n hq
      have hpn : p.name ≠ n := hq p (List.mem_cons_self p rest)
      have hrest : ∀ q ∈ rest, q.name ≠ n :=
        fun q hqm => hq q (List.mem_cons_of_mem p hqm)
      simp only [injectLoop]
      split
      · rw [ih _ n hrest, lookupStr_append_single _ _ _ _ hpn]
      · split
        · rw [ih _ n hrest, lookupStr_append_single _ _ _ _ hpn]
        · exact ih _ n hrest

theorem injectLoop_lookup_unique (req : Request) :
    ∀ (ps : List HParam) (kw : List (String × BVal)) (p : HParam),
      p ∈ ps → (ps.map (·.name)).Nodup → lookupStr kw p.name = none →
      lookupStr (injectLoop ps req kw) p.name
        = if p.ann == some Ann.request then some BVal.breq
          else (lookupStr req.path_params p.name).map BVal.bval := by
  intro ps
  induction ps with
  | nil => intro kw p hp; simp at hp
  | cons q rest ih =>
      intro kw p hp hnd hkw
      have hnd2 := hnd
      simp only [List.map_cons, List.nodup_cons] at hnd2
      obtain ⟨hqn, hndr⟩ := hnd2
      rcases List.mem_cons.mp hp with rfl | hpr
      · have hrest : ∀ q2 ∈ rest, q2.name ≠ p.name := by
          intro q2 hq2 heq
          exact hqn (List.mem_map.mpr ⟨q2, hq2, heq⟩)
        simp only [injectLoop]
        split
        next hreq =>
          rw [injectLoop_lookup_notin req rest _ _ hrest,
            lookupStr_append, hkw]
          simp [lookupStr, List.find?, hreq]
        next hreq =>
          split
          next v hv =>
            rw [injectLoop_lookup_notin req rest _ _ hrest,
              lookupStr_append, hkw]
            simp only [hv, Option.map_some']
            simp [lookupStr, List.find?, hreq]
          next hv =>
            rw [injectLoop_lookup_notin req rest _ _ hrest, hkw]
            simp [hv, hreq]
      · have hqp : q.name ≠ p.name := by
          intro heq
          exact hqn (List.mem_map.mpr ⟨p, hpr, heq.symm⟩)
        simp only [injectLoop]
        split
        · exact ih _ p hpr hndr
            (by rw [lookupStr_append_single _ _ _ _ hqp]; exact hkw)
        · split
          · exact ih _ p hpr hndr
              (by rw [lookupStr_append_single _ _ _ _ hqp]; exact hkw)
          · exact ih _ p hpr hndr hkw

theorem bindQueryLoop_frame (req : Request) :
    ∀ (ps : List HParam) (kw kw' : List (String × BVal)) (n : String),
      n ∉ ps.map (·.name) →
      bindQueryLoop ps req kw = .ok kw' →
      lookupStr kw' n = lookupStr kw n := by
  intro ps
  induction ps with
  | nil =>
      intro kw kw' n _ h
      simp only [bindQueryLoop] at h
      cases h
      rfl
  | cons p rest ih =>
      intro kw kw' n hn h
      have hpn : p.name ≠ n := by
        intro heq
        exact hn (List.mem_map.mpr ⟨p, List.mem_cons_self p rest, heq⟩)
      have hnr : n ∉ rest.map (·.name) := by
        intro hmem
        apply hn
        simp only [List.map_cons, List.mem_cons]
        exact Or.inr hmem
      simp only [bindQueryLoop] at h
      split at h
      · exact ih _ _ n hnr h
      · split at h
        · exact ih _ _ n hnr h
        · split at h
          · split at h
            · rw [ih _ _ n hnr h, lookupStr_append_single _ _ _ _ hpn]
            · cases h
          · split at h
            · exact ih _ _ n hnr h
            · cases h

theorem bindQueryLoop_error_of_findSome (req : Request) :
    ∀ (ps : List HParam) (kw : List (String × BVal)),
      (∀ q ∈ ps, (lookupStr kw q.name).isSome
        = ((q.ann == some Ann.request)
            || (lookupStr req.path_params q.name).isSome)) →
      (ps.map (·.name)).Nodup →
      ∀ e, ps.findSome? (stepErr req) = some e →
      bindQueryLoop ps req kw = .error e := by
  intro ps
  induction ps with
  | nil => intro kw _ _ e h; simp [List.findSome?] at h
  | cons p rest ih =>
      intro kw hinv hnd e h
      have hnd2 := hnd
      simp only [List.map_cons, List.nodup_cons] at hnd2
      obtain ⟨hpn, hndr⟩ := hnd2
      have hinvp := hinv p (List.mem_cons_self p rest)
      have hinvr : ∀ q ∈ rest, (lookupStr kw q.name).isSome
          = ((q.ann == some Ann.request)
              || (lookupStr req.path_params q.name).isSome) :=
        fun q hq => hinv q (List.mem_cons_of_mem p hq)
      rw [List.findSome?_cons] at h
      cases hstep : stepErr req p with
      | some e' =>
          rw [hstep] at h
          cases h
          -- processing p raises e'
          simp only [stepErr] at hstep
          split at hstep
          · cases hstep
          · split at hstep
            · cases hstep
            · rename_i hreq hpath
              have hks : (lookupStr kw p.name).isSome = false := by
                rw [hinvp]
                simp only [Bool.or_eq_false_iff]
                constructor
                · simpa using hreq
                · simpa using hpath
              split at hstep
              · cases hstep
              · rename_i a ha
                simp only [bindQueryLoop, hks, Bool.false_eq_true, if_false,
                  ha]
                cases hraw : lookupStr req.query_params p.name with
                | some raw =>
                    simp only [hraw] at hstep
                    cases hcv : convertQuery a raw with
                    | some v => rw [hcv] at hstep; simp at hstep
                    | none =>
                        rw [hcv] at hstep
                        simp only [Option.isNone_none, if_true,
                          Option.some.injEq] at hstep
                        rw [← hstep]
                        simp [hcv]
                | none =>
                    simp only [hraw] at hstep
                    split at hstep
                    · cases hstep
                    · rename_i hod
                      simp only [Option.some.injEq] at hstep
                      rw [show (isOptionalAnn a || p.hasDefault) = false by
                        simpa using hod, ← hstep]
                      simp
      | none =>
          rw [hstep] at h
          simp only [Option.none_orElse] at h
          -- processing p does not raise; recurse
          simp only [stepErr] at hstep
          simp only [bindQueryLoop]
          split at hstep
          next hreq =>
            have hks : (lookupStr kw p.name).isSome = true := by
              rw [hinvp, hreq]
              rfl
            rw [hks]
            simp only [if_true]
            exact ih kw hinvr hndr e h
          next hreq =>
            split at hstep
            next hpath =>
              have hks : (lookupStr kw p.name).isSome = true := by
                rw [hinvp, hpath]
                simp
              rw [hks]
              simp only [if_true]
              exact ih kw hinvr hndr e h
            next hpath =>
              have hks : (lookupStr kw p.name).isSome = false := by
                rw [hinvp]
                simp only [Bool.or_eq_false_iff]
                constructor
                · simpa using hreq
                · simpa using hpath
              rw [hks]
              simp only [Bool.false_eq_true, if_false]
              cases hann : p.ann with
              | none => exact ih kw hinvr hndr e h
              | some a =>
                  simp only [hann] at hstep
                  cases hraw : lookupStr req.query_params p.name with
                  | some raw =>
                      simp only [hraw] at hstep
                      cases hcv : convertQuery a raw with
                      | none => rw [hcv] at hstep; simp at hstep
                      | some v =>
                          simp only [hcv]
                          apply ih _ _ hndr e h
                          intro q hq
                          have hqp : p.name ≠ q.name := by
                            intro heq
                            exact hpn (List.mem_map.mpr ⟨q, hq, heq.symm⟩)
                          rw [lookupStr_append_single _ _ _ _ hqp]
                          exact hinvr q hq
                  | none =>
                      simp only [hraw] at hstep
                      split at hstep
                      next hod =>
                        have hod2 : (isOptionalAnn a || p.hasDefault) = true := by
                          simpa using hod
                        simp only [hod2, if_true]
                        exact ih kw hinvr hndr e h
                      next hod => cases hstep

theorem findSome_append_none {f : HParam → Option QErr} :
    ∀ (l1 : List HParam), (∀ q ∈ l1, f q = none) →
      ∀ (l2 : List HParam), (l1 ++ l2).findSome? f = l2.findSome? f := by
  intro l1
  induction l1 with
  | nil => intro _ l2; rfl
  | cons q rest ih =>
      intro hq l2
      rw [List.cons_append, List.findSome?_cons,
        hq q (List.mem_cons_self q rest)]
      exact ih (fun q2 hq2 => hq q2 (List.mem_cons_of_mem q hq2)) l2

theorem bindQueryLoop_skip_unbound (req : Request) :
    ∀ (ps : List HParam) (kw kw' : List (String × BVal)) (p : HParam) (a : Ann),
      p ∈ ps → (ps.map (·.name)).Nodup →
      lookupStr kw p.name = none →
      p.ann = some a → (p.ann == some Ann.request) = false →
      lookupStr req.path_params p.name = none →
      lookupStr req.query_params p.name = none →
      (isOptionalAnn a || p.hasDefault) = true →
      bindQueryLoop ps req kw = .ok kw' →
      lookupStr kw' p.name = none := by
  intro ps
  induction ps with
  | nil => intro kw kw' p a hp; simp at hp
  | cons q rest ih =>
      intro kw kw' p a hp hnd hkw ha hreq hpath hq hod h
      have hnd2 := hnd
      simp only [List.map_cons, List.nodup_cons] at hnd2
      obtain ⟨hqn, hndr⟩ := hnd2
      rcases List.mem_cons.mp hp with rfl | hpr
      · have hks : (lookupStr kw p.name).isSome = false := by rw [hkw]; rfl
        have hpnr : p.name ∉ rest.map (·.name) := hqn
        simp only [bindQueryLoop, hks, Bool.false_eq_true, if_false, ha, hq,
          hod, if_true] at h
        rw [bindQueryLoop_frame req rest kw kw' p.name hpnr h]
        exact hkw
      · have hqp : q.name ≠ p.name := by
          intro heq
          exact hqn (List.mem_map.mpr ⟨p, hpr, heq.symm⟩)
        simp only [bindQueryLoop] at h
        split at h
        · exact ih kw kw' p a hpr hndr hkw ha hreq hpath hq hod h
        · split at h
          · exact ih kw kw' p a hpr hndr hkw ha hreq hpath hq hod h
          · split at h
            · split at h
              · exact ih _ kw' p a hpr hndr
                  (by rw [lookupStr_append_single _ _ _ _ hqp]; exact hkw)
                  ha hreq hpath hq hod h
              · cases h
            · split at h
              · exact ih kw kw' p a hpr hndr hkw ha hreq hpath hq hod h
              · cases h

/-- C6: during `Route.handle`, for a handler parameter with an explicit
non-`Request` annotation whose name is not among the resolved path
parameters (and with every earlier parameter binding cleanly): a same-named
query value that fails coercion aborts dispatch with a typed error naming the
parameter — even when a default exists; an absent key with no default and no
`Optional` annotation aborts with a missing-parameter error naming it; an
absent key that is optional or defaulted leaves the parameter unbound. -/
theorem query_binding_errors (r : Route) (req : Request)
    (l1 : List HParam) (p : HParam) (l2 : List HParam) (a : Ann)
    (hsplit : r.handler = l1 ++ p :: l2)
    (hnd : (r.handler.map (·.name)).Nodup)
    (hclean : ∀ q ∈ l1, stepErr req q = none)
    (ha : p.ann = some a) (hna : a ≠ Ann.request)
    (hpath : lookupStr req.path_params p.name = none) :
    (∀ raw, lookupStr req.query_params p.name = some raw →
      convertQuery a raw = none →
      r.handle req = .error (.coercionFailure p.name))
    ∧ (lookupStr req.query_params p.name = none →
        isOptionalAnn a = false → p.hasDefault = false →
        r.handle req = .error (.missingRequired p.name))
    ∧ (lookupStr req.query_params p.name = none →
        (isOptionalAnn a || p.hasDefault) = true →
        ∀ kw, r.handle req = .ok kw → lookupStr kw p.name = none) := by
  have hreqF : (p.ann == some Ann.request) = false := by
    rw [ha]
    simpa using hna
  have hinv : ∀ q ∈ r.handler,
      (lookupStr (injectLoop r.handler req []) q.name).isSome
        = ((q.ann == some Ann.request)
            || (lookupStr req.path_params q.name).isSome) := by
    intro q hq
    rw [injectLoop_lookup_unique req r.handler [] q hq hnd rfl]
    cases hb : (q.ann == some Ann.request) with
    | true => simp
    | false => simp
  have hpmem : p ∈ r.handler := by
    rw [hsplit]
    exact List.mem_append.mpr (Or.inr (List.mem_cons_self p l2))
  refine ⟨?_, ?_, ?_⟩
  · intro raw hraw hcv
    have hstep : stepErr req p = some (.coercionFailure p.name) := by
      simp [stepErr, hreqF, hpath, hraw, ha, hcv, hna]
    have hfind : r.handler.findSome? (stepErr req)
        = some (.coercionFailure p.name) := by
      rw [hsplit, findSome_append_none l1 hclean, List.findSome?_cons, hstep]
    exact bindQueryLoop_error_of_findSome req r.handler _ hinv hnd _ hfind
  · intro hqnone hopt hdef
    have hstep : stepErr req p = some (.missingRequired p.name) := by
      simp [stepErr, hreqF, hpath, hqnone, ha, hopt, hdef, hna]
    have hfind : r.handler.findSome? (stepErr req)
        = some (.missingRequired p.name) := by
      rw [hsplit, findSome_append_none l1 hclean, List.findSome?_cons, hstep]
    exact bindQueryLoop_error_of_findSome req r.handler _ hinv hnd _ hfind
  · intro hqnone hod kw hok
    have hkw1 : lookupStr (injectLoop r.handler req []) p.name = none := by
      rw [injectLoop_lookup_unique req r.handler [] p hpmem hnd rfl, hreqF]
      simp [hpath]
    exact bindQueryLoop_skip_unbound req r.handler _ kw p a hpmem hnd hkw1
      ha hreqF hpath hqnone hod hok

/-- Witness for C6 at the spec's example: handler `limit: int = 10` on
`/search`; `?limit=abc` raises the coercion error naming `limit` despite the
default; a required `q: str` raises the missing error when absent; an absent
defaulted `limit` is left unbound. -/
theorem query_binding_errors_witness :
    (∃ r, Route.make "/search" [⟨"limit", some (.base .bint), true⟩] none 0
        = .ok r
      ∧ r.handle ⟨"GET", "/search", [("limit", "abc")], []⟩
          = .error (.coercionFailure "limit")
      ∧ ∀ kw, r.handle ⟨"GET", "/search", [], []⟩ = .ok kw →
          lookupStr kw "limit" = none)
    ∧ (∃ r, Route.make "/search" [⟨"q", some (.base .bstr), false⟩] none 0
        = .ok r
      ∧ r.handle ⟨"GET", "/search", [], []⟩
          = .error (.missingRequired "q")) := by
  constructor
  · cases hE : Route.make "/search" [⟨"limit", some (.base .bint), true⟩]
        none 0 with
    | error e =>
        have hOk : (Route.make "/search"
            [⟨"limit", some (.base .bint), true⟩] none 0).isOk = true := by
          decide
        rw [hE] at hOk
        cases hOk
    | ok r =>
        have hh : r.handler = [⟨"limit", some (.base .bint), true⟩] :=
          (make_ok_inv _ _ _ _ r hE).2.1
        have h1 := query_binding_errors r
          ⟨"GET", "/search", [("limit", "abc")], []⟩ []
          ⟨"limit", some (.base .bint), true⟩ [] (.base .bint)
          (by rw [hh]; rfl) (by rw [hh]; decide) (by intro q hq; simp at hq)
          rfl (by decide) rfl
        have h2 := query_binding_errors r
          ⟨"GET", "/search", [], []⟩ []
          ⟨"limit", some (.base .bint), true⟩ [] (.base .bint)
          (by rw [hh]; rfl) (by rw [hh]; decide) (by intro q hq; simp at hq)
          rfl (by decide) rfl
        exact ⟨r, rfl, h1.1 "abc" rfl (by decide),
          h2.2.2 rfl (by decide)⟩
  · cases hE : Route.make "/search" [⟨"q", some (.base .bstr), false⟩]
        none 0 with
    | error e =>
        have hOk : (Route.make "/search"
            [⟨"q", some (.base .bstr), false⟩] none 0).isOk = true := by
          decide
        rw [hE] at hOk
        cases hOk
    | ok r =>
        have hh : r.handler = [⟨"q", some (.base .bstr), false⟩] :=
          (make_ok_inv _ _ _ _ r hE).2.1
        have h1 := query_binding_errors r
          ⟨"GET", "/search", [], []⟩ []
          ⟨"q", some (.base .bstr), false⟩ [] (.base .bstr)
          (by rw [hh]; rfl) (by rw [hh]; decide) (by intro q hq; simp at hq)
          rfl (by decide) rfl
        exact ⟨r, rfl, h1.2.1 rfl (by decide) (by decide)⟩

theorem strUpper_fixed_valid : ∀ v ∈ validMethods, strUpper v = v := by
  decide

theorem matches_probe_valid (r : Route) (path method : String)
    (hwf : ∀ m ∈ r.methods, m ∈ validMethods)
    (h : (r.matches path method).1 = true) :
    ∃ m' ∈ validMethods, (r.matches path m').1 = true := by
  have hmem := matches_true_method_mem r path method h
  have hval : strUpper method ∈ validMethods := hwf _ hmem
  refine ⟨strUpper method, hval, ?_⟩
  rw [matches_method_congr r path (strUpper method) method
    (strUpper_fixed_valid _ hval)]
  exact h

theorem all_methods_false (r : Route) (path : String)
    (hwf : ∀ m ∈ r.methods, m ∈ validMethods)
    (h7 : ∀ m ∈ validMethods, (r.matches path m).1 = false) :
    ∀ method, (r.matches path method).1 = false := by
  intro method
  cases hb : (r.matches path method).1 with
  | false => rfl
  | true =>
      obtain ⟨m', hm', hmt⟩ := matches_probe_valid r path method hwf hb
      rw [h7 m' hm'] at hmt
      cases hmt

theorem findRoute_none_of_all_false (rt : Router) (path method : String)
    (h : ∀ e ∈ rt.routes, (e.route.matches path method).1 = false) :
    rt.findRoute path method = none := by
  rw [Router.findRoute, List.findSome?_eq_none_iff]
  intro e he
  simp [h e he]

theorem mem_collectMethods (r : Route) (path : String) :
    ∀ (ms acc : List String) (n : String),
      n ∈ collectMethods r path ms acc ↔
        n ∈ acc ∨ (n ∈ ms ∧ (r.matches path n).1 = true) := by
  intro ms
  induction ms with
  | nil => intro acc n; simp [collectMethods]
  | cons m rest ih =>
      intro acc n
      simp only [collectMethods]
      rw [ih]
      by_cases hc : ((r.matches path m).1 && !acc.contains m) = true
      · simp only [if_pos hc]
        simp only [Bool.and_eq_true, Bool.not_eq_true'] at hc
        obtain ⟨hmt, hnc⟩ := hc
        constructor
        · rintro (hmem | ⟨hr, ht⟩)
          · rcases List.mem_append.mp hmem with hmem | hmem
            · exact Or.inl hmem
            · simp only [List.mem_singleton] at hmem
              exact Or.inr ⟨by rw [hmem]; exact List.mem_cons_self _ _,
                by rw [hmem]; exact hmt⟩
          · exact Or.inr ⟨List.mem_cons_of_mem m hr, ht⟩
        · rintro (hmem | ⟨hr, ht⟩)
          · exact Or.inl (List.mem_append.mpr (Or.inl hmem))
          · rcases List.mem_cons.mp hr with rfl | hr
            · exact Or.inl (List.mem_append.mpr (Or.inr (by simp)))
            · exact Or.inr ⟨hr, ht⟩
      · simp only [if_neg hc]
        constructor
        · rintro (hmem | ⟨hr, ht⟩)
          · exact Or.inl hmem
          · exact Or.inr ⟨List.mem_cons_of_mem m hr, ht⟩
        · rintro (hmem | ⟨hr, ht⟩)
          · exact Or.inl hmem
          · rcases List.mem_cons.mp hr with rfl | hr
            · left
              by_cases hacc : n ∈ acc
              · exact hacc
              · exfalso
                apply hc
                simp only [Bool.and_eq_true, Bool.not_eq_true']
                refine ⟨ht, ?_⟩
                simpa using hacc
            · exact Or.inr ⟨hr, ht⟩

theorem mem_collectAllowed (path : String) :
    ∀ (entries : List RouteEntry) (acc : List String) (n : String),
      n ∈ collectAllowed entries path acc ↔
        n ∈ acc ∨ ∃ e ∈ entries, n ∈ e.route.methods
          ∧ (e.route.matches path n).1 = true := by
  intro entries
  induction entries with
  | nil => intro acc n; simp [collectAllowed]
  | cons e rest ih =>
      intro acc n
      simp only [collectAllowed]
      rw [ih, mem_collectMethods]
      constructor
      · rintro ((hmem | ⟨hms, ht⟩) | ⟨e2, he2, hr⟩)
        · exact Or.inl hmem
        · exact Or.inr ⟨e, List.mem_cons_self e rest, hms, ht⟩
        · exact Or.inr ⟨e2, List.mem_cons_of_mem e he2, hr⟩
      · rintro (hmem | ⟨e2, he2, hms, ht⟩)
        · exact Or.inl (Or.inl hmem)
        · rcases List.mem_cons.mp he2 with rfl | he2
          · exact Or.inl (Or.inr ⟨hms, ht⟩)
          · exact Or.inr ⟨e2, he2, hms, ht⟩

theorem mem_insertStr (x : String) :
    ∀ (l : List String) (n : String), n ∈ insertStr x l ↔ n = x ∨ n ∈ l := by
  intro l
  induction l with
  | nil => intro n; simp [insertStr]
  | cons y ys ih =>
      intro n
      simp only [insertStr]
      split
      · simp [List.mem_cons]
      · rw [List.mem_cons, ih]
        constructor
        · rintro (rfl | h2)
          · exact Or.inr (List.mem_cons_self _ _)
          · rcases h2 with rfl | h2
            · exact Or.inl rfl
            · exact Or.inr (List.mem_cons_of_mem _ h2)
        · rintro (rfl | h2)
          · exact Or.inr (Or.inl rfl)
          · rcases List.mem_cons.mp h2 with rfl | h2
            · exact Or.inl rfl
            · exact Or.inr (Or.inr h2)

theorem mem_sortStrings :
    ∀ (l : List String) (n : String), n ∈ sortStrings l ↔ n ∈ l := by
  intro l
  induction l with
  | nil => intro n; rfl
  | cons x xs ih =>
      intro n
      simp only [sortStrings]
      rw [mem_insertStr, ih, List.mem_cons]

theorem mem_allowedMethodsList (rt : Router) (path : String) (n : String) :
    n ∈ rt.allowedMethodsList path ↔
      ∃ e ∈ rt.routes, n ∈ e.route.methods
        ∧ (e.route.matches path n).1 = true := by
  rw [Router.allowedMethodsList, mem_sortStrings, mem_collectAllowed]
  simp

/-- C2: `handle_request` returns 404 when no route matches the path under any
of the seven standard methods (and hence under no method at all, the stored
method sets being valid); when no route matches under the requested method
but some route matches under some valid method, it returns 405 with an
`Allow` header computed by `_get_allowed_methods`, whose method list contains
exactly the union of methods under which some route matches the path.  The
valid-methods invariant used as a hypothesis is preserved by `add_route`. -/
theorem handle_request_404_405 (rt : Router) (req : Request) :
    (∀ (rt0 : Router) (path : String) (hdl : List HParam)
        (ms : Option (List String)) (pr : Int) (rt' : Router),
      (∀ e ∈ rt0.routes, ∀ m ∈ e.route.methods, m ∈ validMethods) →
      Router.addRoute rt0 path hdl ms pr = .ok rt' →
      ∀ e ∈ rt'.routes, ∀ m ∈ e.route.methods, m ∈ validMethods)
    ∧ ((∀ e ∈ rt.routes, ∀ m ∈ e.route.methods, m ∈ validMethods) →
       (∀ e ∈ rt.routes, ∀ m ∈ validMethods,
          (e.route.matches req.path m).1 = false) →
        rt.handleRequest req
          = .response ⟨"Not Found", HTTP_404_NOT_FOUND, []⟩)
    ∧ ((∀ e ∈ rt.routes, ∀ m ∈ e.route.methods, m ∈ validMethods) →
       (∀ e ∈ rt.routes, (e.route.matches req.path req.method).1 = false) →
       (∃ e ∈ rt.routes, ∃ m ∈ validMethods,
          (e.route.matches req.path m).1 = true) →
        rt.handleRequest req = .response ⟨"Method Not Allowed",
          HTTP_405_METHOD_NOT_ALLOWED,
          [("allow", rt.getAllowedMethods req.path)]⟩
        ∧ ∀ m, m ∈ rt.allowedMethodsList req.path ↔
            ∃ e ∈ rt.routes, m ∈ e.route.methods
              ∧ (e.route.matches req.path m).1 = true) := by
  refine ⟨?_, ?_, ?_⟩
  · intro rt0 path hdl ms pr rt' hwf0 hadd
    simp only [Router.addRoute, bind, Except.bind, pure, Except.pure] at hadd
    cases hmk : Route.make (if path ≠ "/" then rt0.pfx ++ path
        else (if rt0.pfx = "" then "/" else rt0.pfx)) hdl ms pr with
    | error e2 => rw [hmk] at hadd; cases hadd
    | ok route =>
        rw [hmk] at hadd
        cases hadd
        intro e he m hm
        have hperm := List.perm_insertionSort specAbove
          (rt0.routes ++ [⟨route, rt0.routes.length⟩])
        have he2 : e ∈ rt0.routes ++ [⟨route, rt0.routes.length⟩] :=
          hperm.mem_iff.mp he
        rcases List.mem_append.mp he2 with he3 | he3
        · exact hwf0 e he3 m hm
        · simp only [List.mem_singleton] at he3
          subst he3
          obtain ⟨-, -, hms, -, -, hvalid, -⟩ := make_ok_inv _ _ _ _ _ hmk
          rw [hms] at hm
          exact hvalid m hm
  · intro hwf hall
    have hallm : ∀ e ∈ rt.routes, ∀ method,
        (e.route.matches req.path method).1 = false :=
      fun e he => all_methods_false e.route req.path (hwf e he)
        (fun m hm => hall e he m hm)
    have hfr : rt.findRoute req.path req.method = none :=
      findRoute_none_of_all_false rt _ _ (fun e he => hallm e he req.method)
    have hpe : rt.routes.any (fun e =>
        (e.route.matches req.path "GET").1 || (e.route.matches req.path "POST").1
        || (e.route.matches req.path "PUT").1
        || (e.route.matches req.path "DELETE").1
        || (e.route.matches req.path "PATCH").1
        || (e.route.matches req.path "HEAD").1
        || (e.route.matches req.path "OPTIONS").1) = false := by
      rw [List.any_eq_false]
      intro e he
      simp [hallm e he "GET", hallm e he "POST", hallm e he "PUT",
        hallm e he "DELETE", hallm e he "PATCH", hallm e he "HEAD",
        hallm e he "OPTIONS"]
    simp only [Router.handleRequest, hfr, hpe, Bool.false_eq_true, if_false]
  · intro hwf hnone hex
    have hfr : rt.findRoute req.path req.method = none :=
      findRoute_none_of_all_false rt _ _ hnone
    have hpe : rt.routes.any (fun e =>
        (e.route.matches req.path "GET").1 || (e.route.matches req.path "POST").1
        || (e.route.matches req.path "PUT").1
        || (e.route.matches req.path "DELETE").1
        || (e.route.matches req.path "PATCH").1
        || (e.route.matches req.path "HEAD").1
        || (e.route.matches req.path "OPTIONS").1) = true := by
      rw [List.any_eq_true]
      obtain ⟨e, he, m, hmv, hmt⟩ := hex
      refine ⟨e, he, ?_⟩
      simp only [validMethods, List.mem_cons, List.mem_singleton,
        List.not_mem_nil, or_false] at hmv
      rcases hmv with rfl | rfl | rfl | rfl | rfl | rfl | rfl <;>
        simp [hmt]
    refine ⟨?_, fun m => mem_allowedMethodsList rt req.path m⟩
    simp only [Router.handleRequest, hfr, hpe, if_true]

/-- Witness for C2: a router with `/a` registered for GET and POST answers
DELETE `/a` with 405 and `Allow: GET, POST`, and GET `/b` with 404. -/
theorem handle_request_404_405_witness :
    (((Router.init "").addRoute "/a" [] (some ["GET", "POST"]) 0).toOption.getD
        (Router.init "")).handleRequest ⟨"DELETE", "/a", [], []⟩
      = .response ⟨"Method Not Allowed", HTTP_405_METHOD_NOT_ALLOWED,
          [("allow", "GET, POST")]⟩
    ∧ (((Router.init "").addRoute "/a" [] (some ["GET", "POST"]) 0).toOption.getD
        (Router.init "")).handleRequest ⟨"GET", "/b", [], []⟩
      = .response ⟨"Not Found", HTTP_404_NOT_FOUND, []⟩ := by
  constructor
  · have h := (handle_request_404_405
        ((((Router.init "").addRoute "/a" [] (some ["GET", "POST"]) 0)).toOption.getD
          (Router.init "")) ⟨"DELETE", "/a", [], []⟩).2.2
      (by decide) (by decide) (by decide)
    exact h.1.trans (by decide)
  · exact (handle_request_404_405
        ((((Router.init "").addRoute "/a" [] (some ["GET", "POST"]) 0)).toOption.getD
          (Router.init "")) ⟨"GET", "/b", [], []⟩).2.1
      (by decide) (by decide)

theorem tupLE_iff (x y : Int × Nat × Nat × Int) :
    tupLE x y = true ↔
      (x.1 < y.1 ∨ (x.1 = y.1 ∧ (x.2.1 < y.2.1 ∨ (x.2.1 = y.2.1
        ∧ (x.2.2.1 < y.2.2.1 ∨ (x.2.2.1 = y.2.2.1
          ∧ x.2.2.2 ≤ y.2.2.2)))))) := by
  simp [tupLE, Bool.or_eq_true, Bool.and_eq_true, decide_eq_true_eq,
    beq_iff_eq]

theorem tupLE_refl (x : Int × Nat × Nat × Int) : tupLE x x = true := by
  rw [tupLE_iff]
  omega

theorem tupLE_total (x y : Int × Nat × Nat × Int) :
    tupLE x y = true ∨ tupLE y x = true := by
  rw [tupLE_iff, tupLE_iff]
  omega

theorem tupLE_trans (x y z : Int × Nat × Nat × Int)
    (h1 : tupLE x y = true) (h2 : tupLE y z = true) : tupLE x z = true := by
  rw [tupLE_iff] at h1 h2 ⊢
  omega

instance : IsTotal RouteEntry specAbove :=
  ⟨fun a b => tupLE_total (specTuple b) (specTuple a)⟩

instance : IsTrans RouteEntry specAbove :=
  ⟨fun _ _ _ hab hbc => tupLE_trans _ _ _ hbc hab⟩

theorem sortRoutes_sorted (l : List RouteEntry) :
    (sortRoutes l).Sorted specAbove :=
  List.sorted_insertionSort specAbove l

theorem findRoute_aux_max (path method : String) :
    ∀ (l : List RouteEntry), l.Sorted specAbove →
      ∀ (e : RouteEntry) (ps : List (String × Val)),
      l.findSome? (fun e2 =>
        let mr := e2.route.matches path method
        if mr.1 then some (e2, mr.2) else none) = some (e, ps) →
      e ∈ l ∧ e.route.matches path method = (true, ps)
        ∧ ∀ e' ∈ l, (e'.route.matches path method).1 = true →
            tupLE (specTuple e') (specTuple e) = true := by
  intro l
  induction l with
  | nil => intro _ e ps h; simp [List.findSome?] at h
  | cons hd tl ih =>
      intro hs e ps h
      rw [List.sorted_cons] at hs
      obtain ⟨hhd, htl⟩ := hs
      rw [List.findSome?_cons] at h
      cases hmr : (hd.route.matches path method).1 with
      | true =>
          rw [show (let mr := hd.route.matches path method;
              if mr.1 then some (hd, mr.2) else none)
            = some (hd, (hd.route.matches path method).2) by simp [hmr]] at h
          simp only [Option.some_orElse] at h
          cases h
          refine ⟨List.mem_cons_self _ _, ?_, ?_⟩
          · rw [show ((true : Bool),
                (hd.route.matches path method).2)
              = ((hd.route.matches path method).1,
                (hd.route.matches path method).2) by rw [hmr]]
          · intro e' he' ht
            rcases List.mem_cons.mp he' with rfl | he'
            · exact tupLE_refl _
            · exact hhd e' he'
      | false =>
          rw [show (let mr := hd.route.matches path method;
              if mr.1 then some (hd, mr.2) else none) = none by simp [hmr]] at h
          simp only [Option.none_orElse] at h
          obtain ⟨hmem, hmt, hmax⟩ := ih htl e ps h
          refine ⟨List.mem_cons_of_mem _ hmem, hmt, ?_⟩
          intro e' he' ht
          rcases List.mem_cons.mp he' with rfl | he'
          · rw [hmr] at ht; cases ht
          · exact hmax e' he' ht

theorem addRoute_sorted (rt : Router) (path : String) (hdl : List HParam)
    (ms : Option (List String)) (pr : Int) (rt' : Router)
    (h : Router.addRoute rt path hdl ms pr = .ok rt') :
    rt'.routes.Sorted specAbove := by
  simp only [Router.addRoute, bind, Except.bind, pure, Except.pure] at h
  cases hmk : Route.make (if path ≠ "/" then rt.pfx ++ path
      else (if rt.pfx = "" then "/" else rt.pfx)) hdl ms pr with
  | error e2 => rw [hmk] at h; cases h
  | ok route =>
      rw [hmk] at h
      cases h
      exact sortRoutes_sorted _

theorem includeRouter_sorted (rt other : Router) (p2 : String) (rt' : Router)
    (h : Router.includeRouter rt other p2 = .ok rt') :
    rt'.routes.Sorted specAbove := by
  simp only [Router.includeRouter, bind, Except.bind, pure, Except.pure] at h
  cases hic : includeFold (if rstripSlashes p2 ≠ ""
      then rt.pfx ++ rstripSlashes p2 else rt.pfx) other.routes rt.routes with
  | error e2 => rw [hic] at h; cases h
  | ok entries =>
      rw [hic] at h
      cases h
      exact sortRoutes_sorted _

/-- C1: `add_route` and `include_router` leave the route list sorted by the
specificity order (priority, then literal segments, then total segments,
then earlier registration); on such a router, `find_route` returns a
matching route whose specificity tuple is maximal among all matching routes
— in particular, among matching routes of equal priority, none has strictly
more literal segments than the selected one, regardless of registration
order — and `find_route` never misses: if some route matches, it returns
one. -/
theorem find_route_specificity :
    (∀ (rt : Router) (path : String) (hdl : List HParam)
        (ms : Option (List String)) (pr : Int) (rt' : Router),
      Router.addRoute rt path hdl ms pr = .ok rt' →
      rt'.routes.Sorted specAbove)
    ∧ (∀ (rt other : Router) (p2 : String) (rt' : Router),
      Router.includeRouter rt other p2 = .ok rt' →
      rt'.routes.Sorted specAbove)
    ∧ (∀ (rt : Router) (path method : String) (e : RouteEntry)
        (ps : List (String × Val)),
      rt.routes.Sorted specAbove →
      rt.findRoute path method = some (e, ps) →
      e ∈ rt.routes ∧ e.route.matches path method = (true, ps)
        ∧ (∀ e' ∈ rt.routes, (e'.route.matches path method).1 = true →
            tupLE (specTuple e') (specTuple e) = true)
        ∧ (∀ e' ∈ rt.routes, (e'.route.matches path method).1 = true →
            e'.route.priority = e.route.priority →
            literalSegmentCount e'.route.path
              ≤ literalSegmentCount e.route.path))
    ∧ (∀ (rt : Router) (path method : String) (e : RouteEntry),
        e ∈ rt.routes → (e.route.matches path method).1 = true →
        ∃ e0 ps, rt.findRoute path method = some (e0, ps)) := by
  refine ⟨addRoute_sorted, includeRouter_sorted, ?_, ?_⟩
  · intro rt path method e ps hs hf
    rw [Router.findRoute] at hf
    obtain ⟨hmem, hmt, hmax⟩ := findRoute_aux_max path method rt.routes hs e ps hf
    refine ⟨hmem, hmt, hmax, ?_⟩
    intro e' he' ht hpr
    have := hmax e' he' ht
    rw [tupLE_iff] at this
    simp only [specTuple] at this
    omega
  · intro rt path method e he ht
    cases hf : rt.findRoute path method with
    | some v => exact ⟨v.1, v.2, rfl⟩
    | none =>
        rw [Router.findRoute, List.findSome?_eq_none_iff] at hf
        have h2 := hf e he
        simp [ht] at h2

/-- Witness for C1: registering `/api/{name}` first and `/api/health`
second, `find_route` on `/api/health` selects the literal route (the one
with more literal segments), and its specificity dominates every matching
route. -/
theorem find_route_specificity_witness :
    ∃ e ps,
      (((((Router.init "").addRoute "/api/{name}" [⟨"name", none, false⟩]
            none 0).toOption.getD (Router.init "")).addRoute "/api/health"
            [] none 0).toOption.getD (Router.init "")).findRoute
          "/api/health" "GET" = some (e, ps)
      ∧ e.route.path = "/api/health"
      ∧ ∀ e' ∈ (((((Router.init "").addRoute "/api/{name}"
            [⟨"name", none, false⟩] none 0).toOption.getD
            (Router.init "")).addRoute "/api/health" [] none
            0).toOption.getD (Router.init "")).routes,
          (e'.route.matches "/api/health" "GET").1 = true →
          tupLE (specTuple e') (specTuple e) = true := by
  cases hf : (((((Router.init "").addRoute "/api/{name}"
      [⟨"name", none, false⟩] none 0).toOption.getD
      (Router.init "")).addRoute "/api/health" [] none
      0).toOption.getD (Router.init "")).findRoute "/api/health" "GET" with
  | none =>
      have : ((((((Router.init "").addRoute "/api/{name}"
          [⟨"name", none, false⟩] none 0).toOption.getD
          (Router.init "")).addRoute "/api/health" [] none
          0).toOption.getD (Router.init "")).findRoute
            "/api/health" "GET").isSome = true := by decide
      rw [hf] at this
      simp at this
  | some v =>
      obtain ⟨-, -, hmax, -⟩ := find_route_specificity.2.2.1
        (((((Router.init "").addRoute "/api/{name}"
          [⟨"name", none, false⟩] none 0).toOption.getD
          (Router.init "")).addRoute "/api/health" [] none
          0).toOption.getD (Router.init ""))
        "/api/health" "GET" v.1 v.2 (by decide) (by rw [hf])
      refine ⟨v.1, v.2, rfl, ?_, hmax⟩
      have hpath : ((((((Router.init "").addRoute "/api/{name}"
          [⟨"name", none, false⟩] none 0).toOption.getD
          (Router.init "")).addRoute "/api/health" [] none
          0).toOption.getD (Router.init "")).findRoute
            "/api/health" "GET").map (fun p => p.1.route.path)
          = some "/api/health" := by decide
      rw [hf] at hpath
      simpa using hpath

end Vira
